import Mathlib

/-!
Verification development for the flexrender single-worker rendering core.

The C++ sources under src/ are embedded shallowly:
* machine floats that only feed comparisons and exact screen-space arithmetic
  are modelled as exact rationals (`ℚ`), with `+∞` (the HitRecord sentinel)
  modelled as `⊤ : WithTop ℚ`;
* 3-vector geometry (glm) is abstracted behind a bundle `GP` of opaque types
  and functions (triangle intersection, bounding-box test, basis construction);
  nothing proved here depends on their values;
* id-indexed pointer vectors become `List (Option α)`; a null pointer is
  `none`;
* in-place mutation becomes explicit state passing.
-/

set_option maxHeartbeats 1600000

namespace fr

/-- BVH split axes (types/linear_node.hpp via spec §3). -/
inductive Axis : Type
  | X | Y | Z
deriving DecidableEq

/-- Ray kinds of the FatRay state machine (spec §3). -/
inductive RayKind : Type
  | INTERSECT | ILLUMINATE | LIGHT
deriving DecidableEq

/-- A slim ray: origin and direction (spec §3, glossary). -/
structure SlimRay (V D : Type) : Type where
  origin : V
  direction : D

/-- Bundle of the abstract geometric types and float-valued geometric
primitives the core calls into.  `V` = glm::vec3 points, `D` = directions,
`G` = LocalGeometry, `T` = Triangle, `B` = BoundingBox, `Bas` = the camera
basis (u, v, w).  `triIntersect` is Triangle::Intersect (returning the hit
parameter t and the interpolated local geometry, `none` on miss);
`boxHit b r max` is BVH::BoundingHit (bounds validity test, box
intersection and the strict `t < max` pruning test folded together);
`axisNeg r a` is the sign test AxisComponent(direction, axis) < 0 used to
pick near/far children. -/
structure GP : Type 1 where
  V : Type
  D : Type
  G : Type
  T : Type
  B : Type
  Bas : Type
  v0 : V
  d0 : D
  g0 : G
  bas0 : Bas
  triIntersect : T → SlimRay V D → Option (ℚ × G)
  boxHit : B → SlimRay V D → WithTop ℚ → Bool
  axisNeg : SlimRay V D → Axis → Bool
  mkBasis : V → V → V → ℚ → Bas
  screenPt : V → Bas → ℚ → ℚ → ℚ → V
  dirOf : V → V → D

/-- HitRecord (types/hit_record.hpp via spec §3): worker 0 means "no hit",
`t = ⊤` is the +∞ sentinel. -/
structure HitRecord (G : Type) : Type where
  worker : Nat
  mesh : Nat
  t : WithTop ℚ
  geom : G

/-- The unit of work (types/fat_ray.hpp via spec §3).  The traversal-state
and shading scratch fields are omitted: no claim reads them. -/
structure FatRay (P : GP) : Type where
  kind : RayKind
  x : Nat
  y : Nat
  bounces : Nat
  slim : SlimRay P.V P.D
  transmittance : ℚ
  hit : HitRecord P.G

/-- Modelled from the spec: a freshly constructed FatRay (fat_ray.hpp is
absent from src/); per spec §3 its hit record starts with worker_id 0
("no hit") and t = +∞. -/
def FatRay.fresh (P : GP) : FatRay P :=
  { kind := RayKind.INTERSECT
    x := 0
    y := 0
    bounces := 0
    slim := ⟨P.v0, P.d0⟩
    transmittance := 0
    hit := ⟨0, 0, ⊤, P.g0⟩ }

/-- One flattened BVH node (types/linear_node.hpp via spec §3): bounds,
parent index, right-child index, split axis, and the contiguous range
[first_prim, first_prim + n_prims) in the primitive index array.
Leaves are marked by n_prims > 0. -/
structure LinearNode (B : Type) : Type where
  bounds : B
  parent : Nat
  right : Nat
  axis : Axis
  first_prim : Nat
  n_prims : Nat

/-- A mesh as the intersection code consumes it (types/mesh.hpp is absent;
fields follow library.cpp / engine.cpp usage): triangle list, the per-mesh
flattened BVH (nodes + primitive index array), the world→object ray
transform FatRay::TransformTo, and the inverse-transpose normal
correction. -/
structure Mesh (P : GP) : Type where
  id : Nat := 0
  material : Nat
  tris : List P.T
  bvhNodes : List (LinearNode P.B)
  bvhPrims : List Nat
  transformTo : SlimRay P.V P.D → SlimRay P.V P.D
  xformInvTr : P.G → P.G

/-- Shader resource: opaque source `code` plus the prepared script
(none until SyncMesh compiles it). -/
structure Shader : Type where
  code : Nat
  script : Option Nat
deriving DecidableEq

/-- Texture kinds (engine.cpp checks Texture::Kind::PROCEDURAL). -/
inductive TexKind : Type
  | PROCEDURAL | IMAGE
deriving DecidableEq

/-- Texture resource: kind, opaque source, prepared script. -/
structure Texture : Type where
  kind : TexKind
  code : Nat
  script : Option Nat
deriving DecidableEq

/-- Material resource: shader id, emissive flag, texture-binding ids
(the values of the mat->textures map). -/
structure Material : Type where
  shader : Nat
  emissive : Bool
  textures : List Nat
deriving DecidableEq

/-- An id-indexed resource vector of owning pointers: slot id holds
`some v` for a stored entity, `none` for a null hole. -/
abbrev ResTable (α : Type) : Type := List (Option α)

/-- The freshly constructed table: ID #0 is always reserved
(library.cpp:33-38 pushes one nullptr). -/
def ResTable.init (α : Type) : ResTable α := [none]

/-- next_X_id(): the next unused id = the vector's size
(library.hpp NextShaderID etc.). -/
def ResTable.nextID {α : Type} (tbl : ResTable α) : Nat := tbl.length

/-- store_X(id, v): write into the vector, growing with null holes as
needed (library.cpp StoreShader etc.: resize(id+1, nullptr) then assign).
The prior occupant of the slot is dropped (deleted). -/
def ResTable.store {α : Type} (tbl : ResTable α) (id : Nat) (v : α) : ResTable α :=
  if id < tbl.length then tbl.set id (some v)
  else (tbl ++ List.replicate (id + 1 - tbl.length) none).set id (some v)

/-- lookup_X(id): the asserts `id > 0 && id < size` reject id 0 and
out-of-range ids (modelled as `none`); otherwise the slot's pointer is
returned. -/
def ResTable.lookup {α : Type} (tbl : ResTable α) (id : Nat) : Option α :=
  if id = 0 then none else (tbl.get? id).join

/-- The resource library (library.hpp/library.cpp).  The constructor
reserves slot 0 of each id-indexed vector.  Config/camera/image singletons
are held elsewhere in the proofs; `emissive` is the emissive-mesh index. -/
structure Library (P : GP) : Type where
  shaders : ResTable Shader
  textures : ResTable Texture
  materials : ResTable Material
  meshes : ResTable (Mesh P)
  netnodes : ResTable Unit
  emissive : List Nat

/-- Library::Library (library.cpp:19-39): every id vector gets its
reserved null slot 0. -/
def Library.init (P : GP) : Library P :=
  { shaders := ResTable.init Shader
    textures := ResTable.init Texture
    materials := ResTable.init Material
    meshes := ResTable.init (Mesh P)
    netnodes := ResTable.init Unit
    emissive := [] }

/-- Library::StoreMesh (library.cpp:112-127): store the mesh, then if its
material is emissive, record the id in the emissive index.  (The C++
asserts the material pointer; a missing material would abort, modelled as
skipping the index update.) -/
def Library.StoreMesh {P : GP} (lib : Library P) (id : Nat) (m : Mesh P) : Library P :=
  let lib' := { lib with meshes := lib.meshes.store id m }
  match (lib'.materials.get? m.material).join with
  | some mat => if mat.emissive then { lib' with emissive := lib'.emissive ++ [id] } else lib'
  | none => lib'

/-- engine.cpp SyncMesh:171-173: prepare the shader script if we have not
already (shader->script == nullptr).  The compiled ShaderScript is
abstracted to the shader's own source code. -/
def Library.prepShader {P : GP} (lib : Library P) (sid : Nat) : Library P :=
  match lib.shaders.lookup sid with
  | some sh =>
      if sh.script = none then
        { lib with shaders := lib.shaders.set sid (some { sh with script := some sh.code }) }
      else lib
  | none => lib

/-- engine.cpp SyncMesh:176-183: prepare one bound texture for execution if
it is procedural and not yet prepared. -/
def prepTexture (tbl : ResTable Texture) (tid : Nat) : ResTable Texture :=
  match tbl.lookup tid with
  | some tex =>
      if tex.kind = TexKind.PROCEDURAL ∧ tex.script = none then
        tbl.set tid (some { tex with script := some tex.code })
      else tbl
  | none => tbl

/-- engine.cpp SyncMesh:154-187: 0 on null input; otherwise assign the next
mesh id, store the mesh under it (with mesh->id set), prepare the
material's shader script if absent, prepare each bound procedural texture
script if absent, and return the id.  (The asserts on the material and
shader lookups abort on failure; modelled as leaving the rest of the
library unchanged.) -/
def SyncMesh {P : GP} (lib : Library P) (mesh : Option (Mesh P)) : Nat × Library P :=
  match mesh with
  | none => (0, lib)
  | some m =>
      let id := lib.meshes.nextID
      let m' := { m with id := id }
      let lib1 := lib.StoreMesh id m'
      match lib1.materials.lookup m'.material with
      | none => (id, lib1)
      | some mat =>
          let lib2 := lib1.prepShader mat.shader
          let lib3 := { lib2 with textures := mat.textures.foldl prepTexture lib2.textures }
          (id, lib3)

/-! ## Camera (types/camera.cpp) -/

/-- The supersampling cursor (x, y, i, j): pixel (x, y) and cell (i, j) of
the A×A grid.  The int16_t fields are modelled as ℕ: every state reachable
from SetRange(0, width) is non-negative. -/
structure Cursor : Type where
  x : Nat
  y : Nat
  i : Nat
  j : Nat
deriving DecidableEq

/-- camera.cpp:183-196: advance the internal counters, innermost j, then
i, then y, then x. -/
def Cursor.advance (A H : Nat) (c : Cursor) : Cursor :=
  if c.j + 1 ≥ A then
    if c.i + 1 ≥ A then
      if c.y + 1 ≥ H then { x := c.x + 1, y := 0, i := 0, j := 0 }
      else { x := c.x, y := c.y + 1, i := 0, j := 0 }
    else { x := c.x, y := c.y, i := c.i + 1, j := 0 }
  else { x := c.x, y := c.y, i := c.i, j := c.j + 1 }

/-- The effective supersampling radix: the i/j counters wrap at
max A 1 (for A ≤ 1 they reset on every call). -/
def aRad (A : Nat) : Nat := max A 1

/-- Rank of a cursor in the j → i → y → x generation order. -/
def Cursor.encode (A H offset : Nat) (c : Cursor) : Nat :=
  (((c.x - offset) * H + c.y) * aRad A + c.i) * aRad A + c.j

/-- Cursor states reachable during a chunk render. -/
def Cursor.Valid (A H offset : Nat) (c : Cursor) : Prop :=
  offset ≤ c.x ∧ c.y < H ∧ c.i < aRad A ∧ c.j < aRad A

instance (A H offset : Nat) (c : Cursor) : Decidable (c.Valid A H offset) := by
  unfold Cursor.Valid; infer_instance

/-- Camera state (types/camera.hpp fields as read/written by camera.cpp).
The Config* indirection is flattened into the width/height/antialiasing
fields; `aspect` is Camera::ratio; lScr/tScr are the screen extents _l/_t;
the float basis vectors _u/_v/_w are bundled in the abstract `basis`. -/
structure Camera (P : GP) : Type where
  eye : P.V
  look : P.V
  up : P.V
  rotation : ℚ
  aspect : ℚ
  width : Nat
  height : Nat
  antialiasing : Nat
  offset : Nat
  endx : Nat
  chunkSize : Nat
  x : Nat
  y : Nat
  i : Nat
  j : Nat
  initialized : Bool
  lScr : ℚ
  tScr : ℚ
  basis : Option P.Bas
  progress : ℚ

/-- The camera's cursor. -/
def Camera.cursor {P : GP} (cam : Camera P) : Cursor := ⟨cam.x, cam.y, cam.i, cam.j⟩

/-- Write a cursor back into the camera. -/
def Camera.withCursor {P : GP} (cam : Camera P) (c : Cursor) : Camera P :=
  { cam with x := c.x, y := c.y, i := c.i, j := c.j }

/-- The first-call basis set-up block of GeneratePrimary
(camera.cpp:108-137): compute the screen extents and the (rotated) camera
basis, collapsed into the abstract `mkBasis` (pure float geometry). -/
def Camera.initBasis {P : GP} (cam : Camera P) : Camera P :=
  if cam.initialized then cam else
    { cam with
      lScr := cam.aspect / (-2)
      tScr := (1 : ℚ) / 2
      basis := some (P.mkBasis cam.eye cam.look cam.up cam.rotation)
      initialized := true }

/-- The transmittance of one primary ray (camera.cpp:156 and 165): 1
without antialiasing, 1/A² with it. -/
def Camera.transOf {P : GP} (cam : Camera P) : ℚ :=
  if cam.antialiasing ≤ 1 then 1
  else 1 / ((cam.antialiasing : ℚ) * (cam.antialiasing : ℚ))

/-- Camera::GeneratePrimary (camera.cpp:105-208) as a pure function:
given the incoming FatRay and the two uniform jitter draws of this call,
returns (return value, camera after the call, ray after the call).

The screen-space us/vs arithmetic is exact in ℚ; world-point and
direction computation are the abstract `screenPt`/`dirOf`.  The
ReadyToCast spin-wait (camera.cpp:205) only blocks; the monotonic-clock
state it touches is modelled separately by `ReadyToCast` below. -/
def Camera.GeneratePrimary {P : GP} (cam : Camera P) (ray : FatRay P) (jit : ℚ × ℚ) :
    Bool × Camera P × FatRay P :=
  let cam := cam.initBasis
  -- Termination condition (camera.cpp:140-143).
  if cam.x ≥ cam.endx then (false, cam, ray)
  else
    let uv :=
      if cam.antialiasing ≤ 1 then
        (cam.lScr + cam.aspect * ((cam.x : ℚ) + 1/2) / (cam.width : ℚ),
         cam.tScr - ((cam.y : ℚ) + 1/2) / (cam.height : ℚ))
      else
        let cell : ℚ := 1 / (cam.antialiasing : ℚ)
        (cam.lScr + cam.aspect * ((cam.x : ℚ) + (cam.i : ℚ) * cell + jit.1 * cell) / (cam.width : ℚ),
         cam.tScr - ((cam.y : ℚ) + (cam.j : ℚ) * cell + jit.2 * cell) / (cam.height : ℚ))
    let sp := P.screenPt cam.eye (cam.basis.getD P.bas0) uv.1 uv.2 1
    let ray := { ray with
      kind := RayKind.INTERSECT
      x := cam.x
      y := cam.y
      bounces := 0
      slim := ⟨cam.eye, P.dirOf cam.eye sp⟩
      transmittance := cam.transOf }
    let c' := (cam.cursor).advance cam.antialiasing cam.height
    let cam := cam.withCursor c'
    let cam := { cam with progress := 100 * ((c'.x : ℚ) - (cam.offset : ℚ)) / (cam.chunkSize : ℚ) }
    (true, cam, ray)

/-- A monotonic clock reading (struct timespec). -/
structure Timespec : Type where
  sec : Int
  nsec : Int
deriving DecidableEq

/-- The elapsed nanoseconds as camera.cpp:214-221 computes them, borrowing
one second when now.tv_nsec < last.tv_nsec.  (The uint64 arithmetic cannot
wrap for monotonic readings now ≥ last, so ℤ is exact.) -/
def durationNs (last now : Timespec) : Int :=
  if now.nsec < last.nsec then
    (now.sec - last.sec - 1) * 1000000000 + ((now.nsec + 1000000000) - last.nsec)
  else
    (now.sec - last.sec) * 1000000000 + (now.nsec - last.nsec)

/-- Camera::ReadyToCast (camera.cpp:210-229) as a pure function of the
stored last-generation time and the fresh clock reading: returns the
result and the stored time after the call. -/
def ReadyToCast (last now : Timespec) : Bool × Timespec :=
  if durationNs last now > 200000 then (true, now) else (false, last)

/-- Drive GeneratePrimary repeatedly (at most `fuel` successful calls),
feeding the n-th call the n-th jitter pair; returns the emitted rays in
order together with the camera state after the run. -/
def runRays {P : GP} (fuel : Nat) (cam : Camera P) (rng : Nat → ℚ × ℚ) (n : Nat) :
    List (FatRay P) × Camera P :=
  match fuel with
  | 0 => ([], cam)
  | fuel + 1 =>
      match cam.GeneratePrimary (FatRay.fresh P) (rng n) with
      | (false, cam', _) => ([], cam')
      | (true, cam', ray) =>
          let rest := runRays fuel cam' rng (n + 1)
          (ray :: rest.1, rest.2)

/-- The number of primary rays a full chunk render emits. -/
def Camera.total {P : GP} (cam : Camera P) : Nat :=
  (cam.endx - cam.offset) * cam.height * (aRad cam.antialiasing * aRad cam.antialiasing)

/-- A complete sequence of GeneratePrimary calls, from the camera's
current state until exhaustion. -/
def Camera.fullRun {P : GP} (cam : Camera P) (rng : Nat → ℚ × ℚ) :
    List (FatRay P) × Camera P :=
  runRays cam.total cam rng 0

/-! ## BVH traversal (types/bvh.hpp; bvh.cpp is absent from src/, so the
stackless machine is modelled from spec §4.B) and Library intersection
passes (library.cpp:171-240). -/

/-- The intersector body of the library.cpp:215-229 lambda: look up the
triangle `tris[idx]`, intersect, and update the shared hit record when the
new t is strictly nearer. -/
def hitTri (P : GP) (me id : Nat) (r : SlimRay P.V P.D) (acc : HitRecord P.G) (tri : P.T) :
    HitRecord P.G :=
  match P.triIntersect tri r with
  | some (tq, g) => if (tq : WithTop ℚ) < acc.t then ⟨me, id, tq, g⟩ else acc
  | none => acc

/-- The leaf intersector applied through the primitive index array. -/
def hitPrim (P : GP) (me id : Nat) (tris : List P.T) (r : SlimRay P.V P.D)
    (acc : HitRecord P.G) (idx : Nat) : HitRecord P.G :=
  match tris.get? idx with
  | some tri => hitTri P me id r acc tri
  | none => acc

/-- Where the traversal came from (spec §4.B): the parent, the near
sibling, or a child. -/
inductive Visit : Type
  | fromParent | fromSibling | fromChild
deriving DecidableEq

/-- A machine configuration: `none` is the terminated machine, otherwise
the current node index and the from-direction. -/
abbrev TravCfg : Type := Option (Nat × Visit)

/-- BVH::Sibling (bvh.hpp:126-130): the other child of the parent.
Out-of-range lookups (impossible on a well-formed flatten) stay put. -/
def siblingIdx {B : Type} (nodes : List (LinearNode B)) (i : Nat) : Nat :=
  match nodes.get? i with
  | some nd =>
      match nodes.get? nd.parent with
      | some pnd => if pnd.right = i then nd.parent + 1 else pnd.right
      | none => i
  | none => i

/-- The node's stored parent index. -/
def parentIdx {B : Type} (nodes : List (LinearNode B)) (i : Nat) : Nat :=
  match nodes.get? i with
  | some nd => nd.parent
  | none => i

/-- BVH::NearChild (bvh.hpp:133-136): the right child if the ray direction
is negative along the node's axis, else the left child at i+1. -/
def nearChildIdx (P : GP) (nodes : List (LinearNode P.B)) (r : SlimRay P.V P.D) (i : Nat) : Nat :=
  match nodes.get? i with
  | some nd => if P.axisNeg r nd.axis then nd.right else i + 1
  | none => i + 1

/-- The primitive index range referenced by a leaf node. -/
def leafPrims {B : Type} (prims : List Nat) (nd : LinearNode B) : List Nat :=
  (prims.drop nd.first_prim).take nd.n_prims

/-- Modelled from the spec: where the machine goes after finishing node
`i` (spec §4.B): entered from the parent → to the sibling; entered from
the sibling → up to the parent; leaving the root terminates. -/
def moveUpCfg {B : Type} (nodes : List (LinearNode B)) (i : Nat) (v : Visit) : TravCfg :=
  if i = 0 then none
  else
    match v with
    | Visit.fromParent => some (siblingIdx nodes i, Visit.fromSibling)
    | _ => some (parentIdx nodes i, Visit.fromChild)

/-- Modelled from the spec: one step of the stackless Hapala traversal
(spec §4.B; bvh.cpp is absent from src/).  On fromParent/fromSibling the
node's bounds are tested against the ray with the current best t as the
pruning max; a hit leaf runs the intersector over its primitive range and
moves on, a hit inner node descends to the near child, a miss moves on.
On fromChild, returning from the near side descends the far side via the
sibling, returning from the far side climbs to the parent; climbing past
the root terminates. -/
def travStep (P : GP) (nodes : List (LinearNode P.B)) (prims : List Nat) (tris : List P.T)
    (me id : Nat) (r : SlimRay P.V P.D) :
    (Nat × Visit) × HitRecord P.G → TravCfg × HitRecord P.G
  | ((i, v), acc) =>
    match nodes.get? i with
    | none => (none, acc)
    | some nd =>
      match v with
      | Visit.fromChild =>
          if i = 0 then (none, acc)
          else if i = nearChildIdx P nodes r (parentIdx nodes i) then
            (some (siblingIdx nodes i, Visit.fromSibling), acc)
          else (some (parentIdx nodes i, Visit.fromChild), acc)
      | v =>
          if P.boxHit nd.bounds r acc.t then
            if 0 < nd.n_prims then
              (moveUpCfg nodes i v, (leafPrims prims nd).foldl (hitPrim P me id tris r) acc)
            else (some (nearChildIdx P nodes r i, Visit.fromParent), acc)
          else (moveUpCfg nodes i v, acc)

/-- One machine step on a possibly-terminated configuration (termination
is absorbing). -/
def travStep1 (P : GP) (nodes : List (LinearNode P.B)) (prims : List Nat) (tris : List P.T)
    (me id : Nat) (r : SlimRay P.V P.D) :
    TravCfg × HitRecord P.G → TravCfg × HitRecord P.G
  | (none, acc) => (none, acc)
  | (some cfg, acc) => travStep P nodes prims tris me id r (cfg, acc)

/-- Iterate the machine. -/
def travIter (P : GP) (nodes : List (LinearNode P.B)) (prims : List Nat) (tris : List P.T)
    (me id : Nat) (r : SlimRay P.V P.D) (n : Nat) (s : TravCfg × HitRecord P.G) :
    TravCfg × HitRecord P.G :=
  (travStep1 P nodes prims tris me id r)^[n] s

/-- Modelled from the spec: BVH::Traverse (bvh.cpp absent): run the
stackless machine from the root with from = PARENT.  On a well-formed
flatten the machine terminates within 2·|nodes|+1 steps (proved below),
so this fuel is exact, not a truncation. -/
def Traverse (P : GP) (nodes : List (LinearNode P.B)) (prims : List Nat) (tris : List P.T)
    (me id : Nat) (r : SlimRay P.V P.D) (nearest : HitRecord P.G) : HitRecord P.G :=
  (travIter P nodes prims tris me id r (2 * nodes.length + 1)
    (some (0, Visit.fromParent), nearest)).2

/-- The shared tail of NaiveIntersect/Intersect (library.cpp:194-201 and
232-239): commit the pass's nearest hit to the ray only if it found one
(worker > 0) strictly nearer than the ray's current hit, correcting the
interpolated normal by the mesh's inverse-transpose transform. -/
def finishIntersect {P : GP} (lib : Library P) (ray : FatRay P) (nearest : HitRecord P.G) :
    FatRay P :=
  if 0 < nearest.worker ∧ nearest.t < ray.hit.t then
    let geom' :=
      match (lib.meshes.get? nearest.mesh).join with
      | some m => m.xformInvTr nearest.geom
      | none => nearest.geom
    { ray with hit := { nearest with geom := geom' } }
  else ray

/-- One iteration of NaiveIntersect's mesh loop (library.cpp:174-192):
skip id 0 and null slots, else fold the triangle intersector over the
mesh's triangles with the ray in the mesh's object space. -/
def naiveMeshStep (P : GP) (me : Nat) (r : SlimRay P.V P.D) (acc : HitRecord P.G)
    (x : Nat × Option (Mesh P)) : HitRecord P.G :=
  match x with
  | (0, _) => acc
  | (_, none) => acc
  | (id, some mesh) => mesh.tris.foldl (hitTri P me id (mesh.transformTo r)) acc

/-- One iteration of Intersect's mesh loop (library.cpp:207-230): skip
id 0 and null slots, else traverse the mesh's BVH with the ray in the
mesh's object space. -/
def bvhMeshStep (P : GP) (me : Nat) (r : SlimRay P.V P.D) (acc : HitRecord P.G)
    (x : Nat × Option (Mesh P)) : HitRecord P.G :=
  match x with
  | (0, _) => acc
  | (_, none) => acc
  | (id, some mesh) =>
      Traverse P mesh.bvhNodes mesh.bvhPrims mesh.tris me id (mesh.transformTo r) acc

/-- Library::NaiveIntersect (library.cpp:171-202): test the ray against
every triangle of every mesh (ids from 1), in the mesh's object space,
tracking the nearest hit; then commit it. -/
def Library.NaiveIntersect {P : GP} (lib : Library P) (ray : FatRay P) (me : Nat) : FatRay P :=
  finishIntersect lib ray
    (lib.meshes.enum.foldl (naiveMeshStep P me ray.slim) ⟨0, 0, ⊤, P.g0⟩)

/-- Library::Intersect (library.cpp:204-240): the same pass, but each
mesh's triangles are visited through the mesh's BVH. -/
def Library.Intersect {P : GP} (lib : Library P) (ray : FatRay P) (me : Nat) : FatRay P :=
  finishIntersect lib ray
    (lib.meshes.enum.foldl (bvhMeshStep P me ray.slim) ⟨0, 0, ⊤, P.g0⟩)

/-! ### Proof-side view of a flattened BVH as a binary tree -/

/-- A BVH as a tree: leaves carry their primitive index list, inner nodes
their split axis. -/
inductive BTree (B : Type) : Type
  | leaf (bounds : B) (ps : List Nat)
  | node (bounds : B) (axis : Axis) (l r : BTree B)

/-- Node count. -/
def BTree.size {B : Type} : BTree B → Nat
  | BTree.leaf _ _ => 1
  | BTree.node _ _ l r => 1 + l.size + r.size

/-- All primitive indices beneath a tree, left to right. -/
def BTree.allPrims {B : Type} : BTree B → List Nat
  | BTree.leaf _ ps => ps
  | BTree.node _ _ l r => l.allPrims ++ r.allPrims

/-- Reference recursive traversal: test the node bounds with the running
best t; process a hit leaf, recurse near child then far child of a hit
inner node. -/
def recTraverse (P : GP) (tris : List P.T) (me id : Nat) (r : SlimRay P.V P.D) :
    BTree P.B → HitRecord P.G → HitRecord P.G
  | BTree.leaf b ps, acc =>
      if P.boxHit b r acc.t then ps.foldl (hitPrim P me id tris r) acc else acc
  | BTree.node b ax l rr, acc =>
      if P.boxHit b r acc.t then
        if P.axisNeg r ax then
          recTraverse P tris me id r l (recTraverse P tris me id r rr acc)
        else
          recTraverse P tris me id r rr (recTraverse P tris me id r l acc)
      else acc

/-- The flattened arrays hold the given tree at index `i`: spec §3's BVH
invariants (left child at i+1, right child index stored, parent pointers,
leaves marked by n_prims > 0 referencing a contiguous primitive range). -/
inductive SubtreeAt (P : GP) (nodes : List (LinearNode P.B)) (prims : List Nat) :
    Nat → BTree P.B → Prop
  | leaf (i : Nat) (nd : LinearNode P.B) :
      nodes.get? i = some nd → 0 < nd.n_prims →
      SubtreeAt P nodes prims i (BTree.leaf nd.bounds (leafPrims prims nd))
  | node (i : Nat) (nd : LinearNode P.B) (tl tr : BTree P.B) :
      nodes.get? i = some nd → nd.n_prims = 0 →
      nd.right ≠ i + 1 → nd.right ≠ 0 →
      parentIdx nodes (i + 1) = i → parentIdx nodes nd.right = i →
      SubtreeAt P nodes prims (i + 1) tl → SubtreeAt P nodes prims nd.right tr →
      SubtreeAt P nodes prims i (BTree.node nd.bounds nd.axis tl tr)

/-- The bounds `b` is conservative for primitive set `ps` on ray `r`: any
recorded triangle hit beneath it at parameter t passes the bounds test
whenever t would beat the pruning max.  This is the geometric containment
fact (spec §8 invariant 1 plus the box test) the float model cannot
express; it is the hypothesis under which traversal equals the naive
pass. -/
def boxCons (P : GP) (tris : List P.T) (r : SlimRay P.V P.D) (b : P.B) (ps : List Nat) : Prop :=
  ∀ idx ∈ ps, ∀ tri, tris.get? idx = some tri →
    ∀ tq g, P.triIntersect tri r = some (tq, g) →
      ∀ m : WithTop ℚ, (tq : WithTop ℚ) < m → P.boxHit b r m = true

/-- Every node of the tree is conservative for the primitives beneath
it. -/
def ConsTree (P : GP) (tris : List P.T) (r : SlimRay P.V P.D) : BTree P.B → Prop
  | BTree.leaf b ps => boxCons P tris r b ps
  | BTree.node b _ l rr =>
      boxCons P tris r b (l.allPrims ++ rr.allPrims) ∧
      ConsTree P tris r l ∧ ConsTree P tris r rr

/-- The best (least) hit parameter among a triangle list. -/
def bestTri (P : GP) (r : SlimRay P.V P.D) : List P.T → WithTop ℚ
  | [] => ⊤
  | tri :: rest =>
      match P.triIntersect tri r with
      | some (tq, _) => min (tq : WithTop ℚ) (bestTri P r rest)
      | none => bestTri P r rest

/-- The best (least) hit parameter among a primitive index list. -/
def bestPrim (P : GP) (tris : List P.T) (r : SlimRay P.V P.D) : List Nat → WithTop ℚ
  | [] => ⊤
  | idx :: rest =>
      match tris.get? idx with
      | some tri =>
          match P.triIntersect tri r with
          | some (tq, _) => min (tq : WithTop ℚ) (bestPrim P tris r rest)
          | none => bestPrim P tris r rest
      | none => bestPrim P tris r rest

/-- The hit parameter a primitive index contributes (⊤ for out-of-range
indices and misses). -/
def triT (P : GP) (tris : List P.T) (r : SlimRay P.V P.D) (idx : Nat) : WithTop ℚ :=
  match tris.get? idx with
  | some tri =>
      match P.triIntersect tri r with
      | some (tq, _) => (tq : WithTop ℚ)
      | none => ⊤
  | none => ⊤

/-- The least value a candidate scorer takes on a list (⊤ when empty). -/
def bestOf {β : Type} (g : β → WithTop ℚ) : List β → WithTop ℚ
  | [] => ⊤
  | x :: rest => min (g x) (bestOf g rest)

/-- The hit-record fields the intersection passes agree on: worker, mesh
and t (the interpolated geometry may come from a different equal-t
triangle). -/
def key {G : Type} (h : HitRecord G) : Nat × Nat × WithTop ℚ := (h.worker, h.mesh, h.t)

/-- Everything claim C1 needs of one mesh's BVH: the flat arrays are a
well-formed flatten of a tree, every node's bounds is conservative for
the (object-space) ray, and the primitive index array covers the mesh's
triangles exactly (a permutation of their indices). -/
def MeshWF (P : GP) (mesh : Mesh P) (r : SlimRay P.V P.D) : Prop :=
  ∃ t : BTree P.B,
    SubtreeAt P mesh.bvhNodes mesh.bvhPrims 0 t ∧
    t.size ≤ mesh.bvhNodes.length ∧
    ConsTree P mesh.tris r t ∧
    t.allPrims.Perm (List.range mesh.tris.length)

/-! ## Engine / dispatcher (src/baseline/engine.cpp) -/

/-- Image buffer operations (spec §3; types/buffer_op.hpp absent, fields
per engine.cpp:253-263). -/
inductive OpKind : Type
  | WRITE | ACCUMULATE
deriving DecidableEq

/-- One pixel-level buffer operation. -/
structure BufferOp : Type where
  kind : OpKind
  buffer : Nat
  x : Nat
  y : Nat
  value : ℚ
deriving DecidableEq

/-- Per-job work results (spec §3; fields per engine.cpp usage): buffer
ops plus the six ray counters.  The forwards list is dead code in the
baseline engine (engine.cpp:266-276 is commented out). -/
structure WorkResults : Type where
  ops : List BufferOp
  intersects_produced : Nat
  illuminates_produced : Nat
  lights_produced : Nat
  intersects_killed : Nat
  illuminates_killed : Nat
  lights_killed : Nat
deriving DecidableEq

/-- A freshly allocated WorkResults (engine.cpp:234). -/
def WorkResults.fresh : WorkResults := ⟨[], 0, 0, 0, 0, 0, 0⟩

/-- Dispatcher-side render statistics (spec §3; render_stats.hpp absent,
counters per engine.cpp:279-284). -/
structure RenderStats : Type where
  primary_progress : ℚ
  intersects_produced : Nat
  illuminates_produced : Nat
  lights_produced : Nat
  intersects_killed : Nat
  illuminates_killed : Nat
  lights_killed : Nat
deriving DecidableEq

/-- The zeroed stats the engine starts with. -/
def RenderStats.zero : RenderStats := ⟨0, 0, 0, 0, 0, 0, 0⟩

/-- Modelled from the spec: RenderStats::Reset (render_stats.hpp is absent
from src/).  Spec §4.F resets only the per-interval reporting state after
a snapshot; spec §8 reads the cumulative ray counters at render end, so
the counters persist. -/
def RenderStats.Reset (s : RenderStats) : RenderStats := s

/-- AfterWork's counter merge (engine.cpp:279-284). -/
def RenderStats.merge (s : RenderStats) (r : WorkResults) : RenderStats :=
  { s with
    intersects_produced := s.intersects_produced + r.intersects_produced
    illuminates_produced := s.illuminates_produced + r.illuminates_produced
    lights_produced := s.lights_produced + r.lights_produced
    intersects_killed := s.intersects_killed + r.intersects_killed
    illuminates_killed := s.illuminates_killed + r.illuminates_killed
    lights_killed := s.lights_killed + r.lights_killed }

/-- IlluminateIntersection (engine.cpp:372-397): look up the hit mesh, its
material and the material's shader (all asserted non-null) and run the
shader script's indirect() on the ray at the hit point.  The scripted
shader call is the abstract `shade` capability (spec §4.E). -/
def IlluminateIntersection {P : GP} (shade : FatRay P → WorkResults → WorkResults)
    (lib : Library P) (ray : FatRay P) (results : WorkResults) : WorkResults :=
  match lib.meshes.lookup ray.hit.mesh with
  | some mesh =>
      match lib.materials.lookup mesh.material with
      | some mat =>
          match lib.shaders.lookup mat.shader with
          | some _ => shade ray results
          | none => results
      | none => results
  | none => results

/-- ProcessIntersect (engine.cpp:344-362): run the intersection pass, and
if the ray hit anything (hit.worker > 0) illuminate the intersection;
either way the ray dies and intersects_killed is incremented. -/
def ProcessIntersect {P : GP} (shade : FatRay P → WorkResults → WorkResults)
    (lib : Library P) (ray : FatRay P) (results : WorkResults) : WorkResults :=
  let ray' := lib.Intersect ray 1
  let results' :=
    if 0 < ray'.hit.worker then IlluminateIntersection shade lib ray' results else results
  { results' with intersects_killed := results'.intersects_killed + 1 }

/-- ProcessLight (engine.cpp:364-370): TODO in the source; no effect. -/
def ProcessLight {P : GP} (_lib : Library P) (_ray : FatRay P) (results : WorkResults) :
    WorkResults := results

/-- ProcessRay (engine.cpp:324-342): dispatch on the ray kind; an unknown
kind (ILLUMINATE falls into the default branch) only logs. -/
def ProcessRay {P : GP} (shade : FatRay P → WorkResults → WorkResults)
    (lib : Library P) (ray : FatRay P) (results : WorkResults) : WorkResults :=
  match ray.kind with
  | RayKind.INTERSECT => ProcessIntersect shade lib ray results
  | RayKind.LIGHT => ProcessLight lib ray results
  | RayKind.ILLUMINATE => results

/-- Dispatcher state: the static engine.cpp globals that the scheduling
claims read (active_jobs, the camera, the in-flight jobs, the stats, and
whether StopRender ran), plus the jitter-stream position. -/
structure DState (P : GP) : Type where
  active_jobs : Nat
  cam : Camera P
  inflight : List (FatRay P)
  stats : RenderStats
  stopped : Bool
  rngIx : Nat

/-- StopRender (engine.cpp:298-322): stop and close the stats timer,
write the EXR, report timers; for the scheduling claims this is the
render-terminated flag. -/
def StopRender {P : GP} (s : DState P) : DState P := { s with stopped := true }

/-- ScheduleJob (engine.cpp:203-223): do nothing if maxed out; otherwise
ask the camera for a primary ray and, only if it produced one, enqueue a
job carrying it and increment active_jobs. -/
def ScheduleJob {P : GP} (maxJobs : Nat) (rng : Nat → ℚ × ℚ) (s : DState P) : DState P :=
  if s.active_jobs ≥ maxJobs then s
  else
    match s.cam.GeneratePrimary (FatRay.fresh P) (rng s.rngIx) with
    | (true, cam', ray) =>
        { s with
          cam := cam'
          rngIx := s.rngIx + 1
          inflight := s.inflight ++ [ray]
          active_jobs := s.active_jobs + 1 }
    | (false, cam', _) => { s with cam := cam', rngIx := s.rngIx + 1 }

/-- One worker-job completion: OnWork (engine.cpp:225-241) runs ProcessRay
into a fresh WorkResults on the pool, then AfterWork (engine.cpp:243-296)
applies the buffer ops, merges the counters, frees the results, decrements
active_jobs, and either stops the render (active_jobs == 0) or schedules
more work.  Completion order across jobs is nondeterministic in the
source; the counter claims are order-insensitive, and the model completes
the oldest job.  Image application is outside the scheduling state. -/
def CompleteJob {P : GP} (maxJobs : Nat) (shade : FatRay P → WorkResults → WorkResults)
    (lib : Library P) (rng : Nat → ℚ × ℚ) (s : DState P) : DState P :=
  match s.inflight with
  | [] => s
  | ray :: rest =>
      let results := ProcessRay shade lib ray WorkResults.fresh
      let s' := { s with
        inflight := rest
        stats := s.stats.merge results
        active_jobs := s.active_jobs - 1 }
      if s'.active_jobs = 0 then StopRender s' else ScheduleJob maxJobs rng s'

/-- OnStatsTimeout (engine.cpp:189-201): read the camera's progress into
the stats, reset the interval state, log.  It takes max_intervals only to
mirror the engine's configuration surface: the callback never consults
it. -/
def OnStatsTimeout {P : GP} (max_intervals : Nat) (s : DState P) : DState P :=
  let _ := max_intervals
  { s with stats := ({ s.stats with primary_progress := s.cam.progress }).Reset }

/-- EngineInit's job seeding (engine.cpp:142-145): call ScheduleJob
max_jobs times on the pristine dispatcher state. -/
def initJobs {P : GP} (maxJobs : Nat) (rng : Nat → ℚ × ℚ) (cam : Camera P) : DState P :=
  (ScheduleJob maxJobs rng)^[maxJobs]
    { active_jobs := 0
      cam := cam
      inflight := []
      stats := RenderStats.zero
      stopped := false
      rngIx := 0 }

/-- The dispatcher event loop viewed from the scheduling claims: job
completions drive the engine until StopRender runs (or no job is in
flight at all). -/
def runEngine {P : GP} (maxJobs : Nat) (shade : FatRay P → WorkResults → WorkResults)
    (lib : Library P) (rng : Nat → ℚ × ℚ) : Nat → DState P → DState P
  | 0, s => s
  | fuel + 1, s =>
      if s.stopped then s
      else
        match s.inflight with
        | [] => s
        | _ :: _ => runEngine maxJobs shade lib rng fuel (CompleteJob maxJobs shade lib rng s)

/-- Dispatcher states reachable during a render: the seeded initial state,
closed under job completion (which requires a job in flight) and stats
ticks. -/
inductive Reach {P : GP} (maxJobs max_intervals : Nat)
    (shade : FatRay P → WorkResults → WorkResults) (lib : Library P)
    (rng : Nat → ℚ × ℚ) : DState P → Prop
  | init (cam : Camera P) : Reach maxJobs max_intervals shade lib rng (initJobs maxJobs rng cam)
  | complete {s : DState P} : Reach maxJobs max_intervals shade lib rng s → s.inflight ≠ [] →
      Reach maxJobs max_intervals shade lib rng (CompleteJob maxJobs shade lib rng s)
  | tick {s : DState P} : Reach maxJobs max_intervals shade lib rng s →
      Reach maxJobs max_intervals shade lib rng (OnStatsTimeout max_intervals s)

/-- Core invariant of the dispatcher run on a mesh-free scene, relative
to the render's fixed camera parameters cam0: the camera's configuration
never changes, the cursor stays valid with rank at most the chunk total,
the killed counter plus the in-flight jobs equals the number of primaries
generated so far, active_jobs mirrors the in-flight queue, the render has
not stopped, and every in-flight ray is a primary INTERSECT ray with no
recorded hit. -/
def InvCore {P : GP} (maxJobs : Nat) (cam0 : Camera P) (s : DState P) : Prop :=
  s.cam.antialiasing = cam0.antialiasing ∧ s.cam.height = cam0.height ∧
  s.cam.offset = cam0.offset ∧ s.cam.endx = cam0.endx ∧
  (s.cam.cursor).Valid cam0.antialiasing cam0.height cam0.offset ∧
  (s.cam.cursor).encode cam0.antialiasing cam0.height cam0.offset ≤ cam0.total ∧
  s.stats.intersects_killed + s.inflight.length =
    (s.cam.cursor).encode cam0.antialiasing cam0.height cam0.offset ∧
  s.active_jobs = s.inflight.length ∧
  s.inflight.length ≤ maxJobs ∧
  s.stopped = false ∧
  (∀ r ∈ s.inflight, r.kind = RayKind.INTERSECT ∧ r.hit.worker = 0)

/-- The running invariant after seeding: additionally, as long as the
camera is not exhausted the in-flight queue is full. -/
def EngineInv {P : GP} (maxJobs : Nat) (cam0 : Camera P) (s : DState P) : Prop :=
  InvCore maxJobs cam0 s ∧ (¬ cam0.endx ≤ s.cam.x → s.inflight.length = maxJobs)

/-! ## Concrete instantiations used to evaluate the theorems -/

/-- A minimal concrete geometry bundle: triangles are just their hit
parameter, boxes are their own test result, everything vectorial is
trivial. -/
@[reducible] def GPu : GP :=
  { V := Unit, D := Unit, G := Unit, T := ℚ, B := Bool, Bas := Unit
    v0 := (), d0 := (), g0 := (), bas0 := ()
    triIntersect := fun tq _ => some (tq, ())
    boxHit := fun b _ _ => b
    axisNeg := fun _ _ => false
    mkBasis := fun _ _ _ _ => ()
    screenPt := fun _ _ _ _ _ => ()
    dirOf := fun _ _ => () }

/-- A 2×1 camera chunk with 2×2 supersampling, cursor at the start. -/
def camA : Camera GPu :=
  { eye := (), look := (), up := (), rotation := 0, aspect := 2
    width := 2, height := 1, antialiasing := 2
    offset := 0, endx := 2, chunkSize := 2
    x := 0, y := 0, i := 0, j := 0
    initialized := false, lScr := 0, tScr := 0, basis := none, progress := 0 }

/-- The same camera with its cursor past the chunk end. -/
def camDone : Camera GPu := { camA with x := 2 }

/-- A 2×1 camera chunk without supersampling. -/
def camB : Camera GPu := { camA with antialiasing := 1 }

/-- A constant jitter stream. -/
def rng0 : Nat → ℚ × ℚ := fun _ => (0, 0)

/-- A shader capability that contributes nothing. -/
def shade0 : FatRay GPu → WorkResults → WorkResults := fun _ w => w

/-- The freshly constructed (mesh-free) library. -/
def lib0 : Library GPu := Library.init GPu

/-- A library holding one material (id 1, using shader 1 and binding
texture 1), one unprepared shader and one unprepared procedural
texture. -/
def libC8 : Library GPu :=
  { shaders := [none, some ⟨7, none⟩]
    textures := [none, some ⟨TexKind.PROCEDURAL, 9, none⟩]
    materials := [none, some ⟨1, false, [1]⟩]
    meshes := [none]
    netnodes := [none]
    emissive := [] }

/-- A triangle-less mesh using material 1. -/
def meshC8 : Mesh GPu :=
  { material := 1, tris := [], bvhNodes := [], bvhPrims := []
    transformTo := fun r => r, xformInvTr := fun g => g }

/-- Texture preparation as a value transform (engine.cpp:180-182). -/
def texPrep (tex : Texture) : Texture :=
  if tex.kind = TexKind.PROCEDURAL ∧ tex.script = none then
    { tex with script := some tex.code }
  else tex

/-- A mesh with three triangles under a two-leaf BVH, for evaluating the
intersection-equivalence theorem. -/
def meshT : Mesh GPu :=
  { material := 1
    tris := [(3 : ℚ), 1, 2]
    bvhNodes :=
      [ { bounds := true, parent := 0, right := 2, axis := Axis.X, first_prim := 0, n_prims := 0 }
      , { bounds := true, parent := 0, right := 0, axis := Axis.X, first_prim := 0, n_prims := 2 }
      , { bounds := true, parent := 0, right := 0, axis := Axis.X, first_prim := 2, n_prims := 1 } ]
    bvhPrims := [0, 1, 2]
    transformTo := fun r => r
    xformInvTr := fun g => g }

/-- The tree view of meshT's BVH. -/
def treeT : BTree Bool :=
  BTree.node true Axis.X (BTree.leaf true [0, 1]) (BTree.leaf true [2])

/-- A library holding meshT at id 1. -/
def libT : Library GPu :=
  { shaders := [none]
    textures := [none]
    materials := [none]
    meshes := [none, some meshT]
    netnodes := [none]
    emissive := [] }

/-- A world ray pointed at the concrete scene. -/
def rayT : FatRay GPu := FatRay.fresh GPu

/-- The transmittance sum of a ray list. -/
def tSum {P : GP} (L : List (FatRay P)) : ℚ := (L.map FatRay.transmittance).sum

/-- The fields of an emitted primary ray the coverage claim reads:
subject pixel and transmittance. -/
def rayProj {P : GP} (r : FatRay P) : Nat × Nat × ℚ := (r.x, r.y, r.transmittance)

/-- The pixel addressed by the e-th primary ray of a chunk render (in the
j → i → y → x generation order). -/
def pixOf (A H offset : Nat) (e : Nat) : Nat × Nat :=
  (offset + e / (aRad A * aRad A) / H, e / (aRad A * aRad A) % H)

/-! ## Theorems -/

/-- The basis set-up block touches only lScr/tScr/basis/initialized. -/
theorem initBasis_fields {P : GP} (cam : Camera P) :
    cam.initBasis.x = cam.x ∧ cam.initBasis.y = cam.y ∧
    cam.initBasis.i = cam.i ∧ cam.initBasis.j = cam.j ∧
    cam.initBasis.endx = cam.endx ∧ cam.initBasis.offset = cam.offset ∧
    cam.initBasis.eye = cam.eye ∧ cam.initBasis.width = cam.width ∧
    cam.initBasis.height = cam.height ∧ cam.initBasis.antialiasing = cam.antialiasing ∧
    cam.initBasis.chunkSize = cam.chunkSize ∧ cam.initBasis.aspect = cam.aspect := by
  unfold Camera.initBasis
  split <;> exact ⟨rfl, rfl, rfl, rfl, rfl, rfl, rfl, rfl, rfl, rfl, rfl, rfl⟩

theorem initBasis_x {P : GP} (cam : Camera P) : cam.initBasis.x = cam.x :=
  (initBasis_fields cam).1

theorem initBasis_y {P : GP} (cam : Camera P) : cam.initBasis.y = cam.y :=
  (initBasis_fields cam).2.1

theorem initBasis_i {P : GP} (cam : Camera P) : cam.initBasis.i = cam.i :=
  (initBasis_fields cam).2.2.1

theorem initBasis_j {P : GP} (cam : Camera P) : cam.initBasis.j = cam.j :=
  (initBasis_fields cam).2.2.2.1

theorem initBasis_endx {P : GP} (cam : Camera P) : cam.initBasis.endx = cam.endx :=
  (initBasis_fields cam).2.2.2.2.1

theorem initBasis_offset {P : GP} (cam : Camera P) : cam.initBasis.offset = cam.offset :=
  (initBasis_fields cam).2.2.2.2.2.1

theorem initBasis_eye {P : GP} (cam : Camera P) : cam.initBasis.eye = cam.eye :=
  (initBasis_fields cam).2.2.2.2.2.2.1

theorem initBasis_width {P : GP} (cam : Camera P) : cam.initBasis.width = cam.width :=
  (initBasis_fields cam).2.2.2.2.2.2.2.1

theorem initBasis_height {P : GP} (cam : Camera P) : cam.initBasis.height = cam.height :=
  (initBasis_fields cam).2.2.2.2.2.2.2.2.1

theorem initBasis_aa {P : GP} (cam : Camera P) :
    cam.initBasis.antialiasing = cam.antialiasing :=
  (initBasis_fields cam).2.2.2.2.2.2.2.2.2.1

/-- GeneratePrimary unfolded on the exhausted cursor. -/
theorem generate_false {P : GP} (cam : Camera P) (ray : FatRay P) (jit : ℚ × ℚ)
    (hx : cam.endx ≤ cam.x) :
    cam.GeneratePrimary ray jit = (false, cam.initBasis, ray) := by
  unfold Camera.GeneratePrimary
  rw [if_pos]
  rw [initBasis_x, initBasis_endx]
  exact hx

/-- GeneratePrimary unfolded on a live cursor: the filled ray and the
advanced camera, stated field by field. -/
theorem generate_true {P : GP} (cam : Camera P) (ray : FatRay P) (jit : ℚ × ℚ)
    (hx : cam.x < cam.endx) :
    (cam.GeneratePrimary ray jit).1 = true ∧
    (cam.GeneratePrimary ray jit).2.2.kind = RayKind.INTERSECT ∧
    (cam.GeneratePrimary ray jit).2.2.bounces = 0 ∧
    (cam.GeneratePrimary ray jit).2.2.slim.origin = cam.eye ∧
    (cam.GeneratePrimary ray jit).2.2.x = cam.x ∧
    (cam.GeneratePrimary ray jit).2.2.y = cam.y ∧
    (cam.GeneratePrimary ray jit).2.2.hit = ray.hit ∧
    (cam.GeneratePrimary ray jit).2.2.transmittance = cam.transOf ∧
    (cam.GeneratePrimary ray jit).2.1.cursor =
      (cam.cursor).advance cam.antialiasing cam.height ∧
    (cam.GeneratePrimary ray jit).2.1.endx = cam.endx ∧
    (cam.GeneratePrimary ray jit).2.1.offset = cam.offset ∧
    (cam.GeneratePrimary ray jit).2.1.height = cam.height ∧
    (cam.GeneratePrimary ray jit).2.1.antialiasing = cam.antialiasing := by
  unfold Camera.GeneratePrimary
  rw [if_neg]
  · refine ⟨rfl, rfl, rfl, ?_, ?_, ?_, rfl, ?_, ?_, ?_, ?_, ?_, ?_⟩
    · show cam.initBasis.eye = cam.eye
      exact initBasis_eye cam
    · show cam.initBasis.x = cam.x
      exact initBasis_x cam
    · show cam.initBasis.y = cam.y
      exact initBasis_y cam
    · show cam.initBasis.transOf = cam.transOf
      unfold Camera.transOf
      rw [initBasis_aa]
    · show (cam.initBasis.withCursor
          ((cam.initBasis.cursor).advance cam.initBasis.antialiasing cam.initBasis.height)).cursor
          = (cam.cursor).advance cam.antialiasing cam.height
      have : cam.initBasis.cursor = cam.cursor := by
        unfold Camera.cursor
        rw [initBasis_x, initBasis_y, initBasis_i, initBasis_j]
      rw [Camera.withCursor, Camera.cursor, this, initBasis_aa, initBasis_height]
    · show cam.initBasis.endx = cam.endx
      exact initBasis_endx cam
    · show cam.initBasis.offset = cam.offset
      exact initBasis_offset cam
    · show cam.initBasis.height = cam.height
      exact initBasis_height cam
    · show cam.initBasis.antialiasing = cam.antialiasing
      exact initBasis_aa cam
  · rw [initBasis_x, initBasis_endx]
    omega

/-- C7: id 0 is reserved for every resource kind: a fresh Library answers
1 from every next_X_id(), lookup_X(0) is rejected for any table state,
and storing at next_X_id() advances next_X_id() by exactly 1. -/
theorem C7_id_zero_reserved (P : GP) (α : Type) (tbl : ResTable α) (v : α) :
    ((Library.init P).shaders.nextID = 1 ∧ (Library.init P).textures.nextID = 1 ∧
      (Library.init P).materials.nextID = 1 ∧ (Library.init P).meshes.nextID = 1 ∧
      (Library.init P).netnodes.nextID = 1) ∧
    tbl.lookup 0 = none ∧
    (tbl.store tbl.nextID v).nextID = tbl.nextID + 1 := by
  refine ⟨⟨rfl, rfl, rfl, rfl, rfl⟩, ?_, ?_⟩
  · simp [ResTable.lookup]
  · unfold ResTable.store ResTable.nextID
    rw [if_neg (lt_irrefl _)]
    simp

/-- C6 (amended): ReadyToCast computes the elapsed nanoseconds exactly
(including the borrowed-second case) and permits generation — returning
true and storing the fresh reading — exactly when STRICTLY MORE than
200 µs (200000 ns) have elapsed; otherwise it returns false and the
stored time is unchanged. -/
theorem C6_throttle_amended (last now : Timespec) :
    durationNs last now =
      (now.sec * 1000000000 + now.nsec) - (last.sec * 1000000000 + last.nsec) ∧
    ((ReadyToCast last now).1 = true ↔ 200000 < durationNs last now) ∧
    (ReadyToCast last now).2 = if 200000 < durationNs last now then now else last := by
  refine ⟨?_, ?_, ?_⟩
  · unfold durationNs; split <;> ring
  · unfold ReadyToCast
    split
    next h => simpa using h
    next h => simpa using h
  · unfold ReadyToCast
    split
    next h => simp [if_pos h]
    next h => simp [if_neg h]

/-- C6 counterexample: with exactly 200 µs elapsed it is not the case that
"fewer than 200µs have passed", so the claim says generation is
permitted; ReadyToCast returns false. -/
theorem C6_throttle_cex :
    durationNs ⟨0, 0⟩ ⟨0, 200000⟩ = 200000 ∧
    ¬ durationNs ⟨0, 0⟩ ⟨0, 200000⟩ < 200000 ∧
    (ReadyToCast ⟨0, 0⟩ ⟨0, 200000⟩).1 = false := by
  decide

/-- The commit gate shared by both intersection passes: the ray is either
returned unchanged, or its hit is overwritten by a found hit (worker > 0)
that is strictly nearer. -/
theorem finishIntersect_cases (P : GP) (lib : Library P) (ray : FatRay P)
    (nearest : HitRecord P.G) :
    finishIntersect lib ray nearest = ray ∨
      (0 < (finishIntersect lib ray nearest).hit.worker ∧
        (finishIntersect lib ray nearest).hit.t < ray.hit.t) := by
  unfold finishIntersect
  split
  next h => right; exact ⟨h.1, h.2⟩
  next => left; rfl

/-- C10: neither Intersect nor NaiveIntersect ever increases the ray's
stored hit parameter: ray->hit is overwritten only when the pass found a
hit (worker > 0) strictly nearer than the previous hit, and the ray is
left completely unchanged otherwise. -/
theorem C10_hit_commit_guarded (P : GP) (lib : Library P) (ray : FatRay P) (me : Nat) :
    (lib.Intersect ray me = ray ∨
      (0 < (lib.Intersect ray me).hit.worker ∧
        (lib.Intersect ray me).hit.t < ray.hit.t)) ∧
    (lib.NaiveIntersect ray me = ray ∨
      (0 < (lib.NaiveIntersect ray me).hit.worker ∧
        (lib.NaiveIntersect ray me).hit.t < ray.hit.t)) ∧
    (lib.Intersect ray me).hit.t ≤ ray.hit.t ∧
    (lib.NaiveIntersect ray me).hit.t ≤ ray.hit.t := by
  obtain ⟨nI, hnI⟩ : ∃ n, lib.Intersect ray me = finishIntersect lib ray n := ⟨_, rfl⟩
  obtain ⟨nN, hnN⟩ : ∃ n, lib.NaiveIntersect ray me = finishIntersect lib ray n := ⟨_, rfl⟩
  rw [hnI, hnN]
  have hI := finishIntersect_cases P lib ray nI
  have hN := finishIntersect_cases P lib ray nN
  refine ⟨hI, hN, ?_, ?_⟩
  · rcases hI with h | h
    · rw [h]
    · exact le_of_lt h.2
  · rcases hN with h | h
    · rw [h]
    · exact le_of_lt h.2

/-- C4 (the code side): the stats-timer callback is inert with respect to
render termination — iterating OnStatsTimeout over any number of
intervals, for any max_intervals setting, never changes the stopped flag
or the scheduling state, and the callback's behaviour does not depend on
max_intervals at all.  Together with the declared purpose of max_intervals
(engine.cpp:30-32) this exhibits the missing watchdog. -/
theorem C4_stats_callback_inert (P : GP) (mi mi' n : Nat) (s : DState P) :
    ((OnStatsTimeout mi)^[n] s).stopped = s.stopped ∧
    ((OnStatsTimeout mi)^[n] s).active_jobs = s.active_jobs ∧
    ((OnStatsTimeout mi)^[n] s).inflight = s.inflight ∧
    OnStatsTimeout mi s = OnStatsTimeout mi' s := by
  have key : ∀ m : Nat,
      ((OnStatsTimeout mi)^[m] s).stopped = s.stopped ∧
      ((OnStatsTimeout mi)^[m] s).active_jobs = s.active_jobs ∧
      ((OnStatsTimeout mi)^[m] s).inflight = s.inflight := by
    intro m
    induction m with
    | zero => exact ⟨rfl, rfl, rfl⟩
    | succ m ih =>
        rw [Function.iterate_succ_apply']
        exact ⟨ih.1, ih.2.1, ih.2.2⟩
  exact ⟨(key n).1, (key n).2.1, (key n).2.2, rfl⟩

/-- C5: a GeneratePrimary call with the cursor at or past the chunk end
returns false and writes none of the passed ray's fields; with x < _end
it returns true and fills the ray: kind INTERSECT, bounces 0, origin the
camera eye, the cursor's (x, y) recorded. -/
theorem C5_generate_primary_contract (P : GP) (cam : Camera P) (ray : FatRay P) (jit : ℚ × ℚ) :
    (cam.endx ≤ cam.x →
      (cam.GeneratePrimary ray jit).1 = false ∧
      (cam.GeneratePrimary ray jit).2.2 = ray) ∧
    (cam.x < cam.endx →
      (cam.GeneratePrimary ray jit).1 = true ∧
      (cam.GeneratePrimary ray jit).2.2.kind = RayKind.INTERSECT ∧
      (cam.GeneratePrimary ray jit).2.2.bounces = 0 ∧
      (cam.GeneratePrimary ray jit).2.2.slim.origin = cam.eye ∧
      (cam.GeneratePrimary ray jit).2.2.x = cam.x ∧
      (cam.GeneratePrimary ray jit).2.2.y = cam.y) := by
  constructor
  · intro hx
    rw [generate_false cam ray jit hx]
    exact ⟨rfl, rfl⟩
  · intro hx
    have h := generate_true cam ray jit hx
    exact ⟨h.1, h.2.1, h.2.2.1, h.2.2.2.1, h.2.2.2.2.1, h.2.2.2.2.2.1⟩

/-- Evaluation of the C5 contract: the exhausted 2×1 camera rejects and
leaves the ray alone; the fresh one fills it. -/
theorem C5_generate_primary_contract_witness :
    ((camDone.GeneratePrimary (FatRay.fresh GPu) (0, 0)).1 = false ∧
      (camDone.GeneratePrimary (FatRay.fresh GPu) (0, 0)).2.2 = FatRay.fresh GPu) ∧
    ((camA.GeneratePrimary (FatRay.fresh GPu) (0, 0)).1 = true ∧
      (camA.GeneratePrimary (FatRay.fresh GPu) (0, 0)).2.2.kind = RayKind.INTERSECT ∧
      (camA.GeneratePrimary (FatRay.fresh GPu) (0, 0)).2.2.bounces = 0 ∧
      (camA.GeneratePrimary (FatRay.fresh GPu) (0, 0)).2.2.slim.origin = camA.eye ∧
      (camA.GeneratePrimary (FatRay.fresh GPu) (0, 0)).2.2.x = camA.x ∧
      (camA.GeneratePrimary (FatRay.fresh GPu) (0, 0)).2.2.y = camA.y) :=
  ⟨(C5_generate_primary_contract GPu camDone (FatRay.fresh GPu) (0, 0)).1 (by decide),
   (C5_generate_primary_contract GPu camA (FatRay.fresh GPu) (0, 0)).2 (by decide)⟩

/-- Overwriting a slot that lookup can see changes exactly that slot's
lookup. -/
theorem lookup_set {α : Type} (tbl : ResTable α) (t0 : Nat) (w : α) (v : α)
    (h : tbl.lookup t0 = some w) (tid : Nat) :
    ResTable.lookup (tbl.set t0 (some v)) tid =
      if tid = t0 then some v else tbl.lookup tid := by
  have h0 : t0 ≠ 0 := by
    intro h0; rw [h0] at h; simp [ResTable.lookup] at h
  have hlt : t0 < tbl.length := by
    by_contra hge
    rw [ResTable.lookup, if_neg h0, List.get?_eq_none.mpr (Nat.le_of_not_lt hge)] at h
    simp at h
  by_cases ht : tid = t0
  · subst ht
    rw [ResTable.lookup, if_neg h0, if_pos rfl, List.get?_set_eq_of_lt _ hlt]
    rfl
  · rw [if_neg ht, ResTable.lookup, ResTable.lookup]
    by_cases hz : tid = 0
    · rw [if_pos hz, if_pos hz]
    · rw [if_neg hz, if_neg hz, List.get?_set_ne _ _ (fun h' => ht h'.symm)]

/-- texPrep does nothing the second time. -/
theorem texPrep_idem (tex : Texture) : texPrep (texPrep tex) = texPrep tex := by
  unfold texPrep
  by_cases h : tex.kind = TexKind.PROCEDURAL ∧ tex.script = none
  · rw [if_pos h]; simp
  · rw [if_neg h, if_neg h]

/-- One prepTexture pass, described slot-wise. -/
theorem prepTexture_lookup (tbl : ResTable Texture) (t0 tid : Nat) :
    ResTable.lookup (prepTexture tbl t0) tid =
      if tid = t0 then (tbl.lookup t0).map texPrep else tbl.lookup tid := by
  unfold prepTexture
  split
  next tex h =>
    by_cases hc : tex.kind = TexKind.PROCEDURAL ∧ tex.script = none
    · rw [if_pos hc, lookup_set tbl t0 tex _ h tid]
      by_cases ht : tid = t0
      · subst ht; simp [h, texPrep, hc]
      · simp [ht]
    · rw [if_neg hc]
      by_cases ht : tid = t0
      · subst ht; simp [h, texPrep, hc]
      · simp [ht]
  next h =>
    by_cases ht : tid = t0
    · subst ht; simp [h]
    · simp [ht]

/-- The texture-prep fold, described slot-wise: each bound texture id is
prepared (idempotently), all other slots are untouched. -/
theorem foldl_prepTexture_lookup (tids : List Nat) (tbl : ResTable Texture) (tid : Nat) :
    ResTable.lookup (tids.foldl prepTexture tbl) tid =
      if tid ∈ tids then (tbl.lookup tid).map texPrep else tbl.lookup tid := by
  induction tids generalizing tbl with
  | nil => simp
  | cons t0 rest ih =>
      rw [List.foldl_cons, ih]
      by_cases h0 : tid = t0
      · subst h0
        rw [prepTexture_lookup]
        simp only [if_pos rfl, List.mem_cons, true_or, if_pos]
        by_cases hm : tid ∈ rest
        · rw [if_pos hm]
          cases tbl.lookup tid <;> simp [texPrep_idem]
        · rw [if_neg hm]
      · rw [prepTexture_lookup, if_neg h0]
        by_cases hm : tid ∈ rest
        · rw [if_pos hm, if_pos (List.mem_cons.mpr (Or.inr hm))]
        · rw [if_neg hm, if_neg (by simp [List.mem_cons, h0, hm])]

/-- prepShader touches only the shader table, and only when the script is
absent. -/
theorem prepShader_fields {P : GP} (lib : Library P) (sid : Nat) (sh : Shader)
    (h : lib.shaders.lookup sid = some sh) :
    (lib.prepShader sid).shaders =
      (if sh.script = none then lib.shaders.set sid (some { sh with script := some sh.code })
       else lib.shaders) ∧
    (lib.prepShader sid).textures = lib.textures ∧
    (lib.prepShader sid).materials = lib.materials ∧
    (lib.prepShader sid).meshes = lib.meshes := by
  unfold Library.prepShader
  split
  next sh' hs' =>
    obtain rfl : sh = sh' := Option.some.inj (h.symm.trans hs')
    by_cases hs : sh.script = none
    · rw [if_pos hs, if_pos hs]; exact ⟨rfl, rfl, rfl, rfl⟩
    · rw [if_neg hs, if_neg hs]; exact ⟨rfl, rfl, rfl, rfl⟩
  next hs' =>
    rw [h] at hs'
    exact Option.noConfusion hs'

/-- StoreMesh writes only the mesh table (and the emissive index). -/
theorem StoreMesh_fields {P : GP} (lib : Library P) (id : Nat) (m : Mesh P) :
    (lib.StoreMesh id m).meshes = lib.meshes.store id m ∧
    (lib.StoreMesh id m).materials = lib.materials ∧
    (lib.StoreMesh id m).shaders = lib.shaders ∧
    (lib.StoreMesh id m).textures = lib.textures := by
  simp only [Library.StoreMesh]
  split
  · split
    · exact ⟨rfl, rfl, rfl, rfl⟩
    · exact ⟨rfl, rfl, rfl, rfl⟩
  · exact ⟨rfl, rfl, rfl, rfl⟩

/-- C8: SyncMesh returns 0 and changes nothing on a null mesh; on a
non-null mesh it assigns the next mesh id, stores the mesh (with the id
written into it) under that id, compiles the material's shader script
only if it was not prepared before, prepares exactly the material's bound
texture ids — compiling a procedural texture's script only if not
prepared before — and returns the assigned id. -/
theorem C8_sync_mesh_contract (P : GP) (lib : Library P) (m : Mesh P) (mat : Material)
    (sh : Shader)
    (hmat : lib.materials.lookup m.material = some mat)
    (hsh : lib.shaders.lookup mat.shader = some sh) :
    SyncMesh lib none = (0, lib) ∧
    (SyncMesh lib (some m)).1 = lib.meshes.nextID ∧
    (SyncMesh lib (some m)).2.meshes =
      lib.meshes.store lib.meshes.nextID { m with id := lib.meshes.nextID } ∧
    (SyncMesh lib (some m)).2.materials = lib.materials ∧
    (SyncMesh lib (some m)).2.shaders =
      (if sh.script = none then lib.shaders.set mat.shader (some { sh with script := some sh.code })
       else lib.shaders) ∧
    (∀ tid, (SyncMesh lib (some m)).2.textures.lookup tid =
      (if tid ∈ mat.textures then (lib.textures.lookup tid).map texPrep
       else lib.textures.lookup tid)) := by
  have hsm := StoreMesh_fields lib lib.meshes.nextID { m with id := lib.meshes.nextID }
  have hmat1 :
      ResTable.lookup
        (lib.StoreMesh lib.meshes.nextID { m with id := lib.meshes.nextID }).materials
        m.material = some mat := by
    rw [hsm.2.1]; exact hmat
  have hsh1 :
      ResTable.lookup
        (lib.StoreMesh lib.meshes.nextID { m with id := lib.meshes.nextID }).shaders
        mat.shader = some sh := by
    rw [hsm.2.2.1]; exact hsh
  have hps := prepShader_fields
    (lib.StoreMesh lib.meshes.nextID { m with id := lib.meshes.nextID }) mat.shader sh hsh1
  refine ⟨rfl, ?_, ?_, ?_, ?_, ?_⟩
  · simp only [SyncMesh, hmat1]
  · simp only [SyncMesh, hmat1]
    rw [hps.2.2.2, hsm.1]
  · simp only [SyncMesh, hmat1]
    rw [hps.2.2.1, hsm.2.1]
  · simp only [SyncMesh, hmat1]
    rw [hps.1, hsm.2.2.1]
  · intro tid
    simp only [SyncMesh, hmat1]
    rw [foldl_prepTexture_lookup, hps.2.1, hsm.2.2.2]

/-- Evaluation of the C8 contract on the one-material library: the mesh
gets id 1, the shader and the bound procedural texture are compiled. -/
theorem C8_sync_mesh_contract_witness :
    SyncMesh libC8 none = (0, libC8) ∧
    (SyncMesh libC8 (some meshC8)).1 = 1 ∧
    (SyncMesh libC8 (some meshC8)).2.shaders = [none, some ⟨7, some 7⟩] ∧
    (SyncMesh libC8 (some meshC8)).2.textures.lookup 1 =
      some ⟨TexKind.PROCEDURAL, 9, some 9⟩ := by
  have h := C8_sync_mesh_contract GPu libC8 meshC8 ⟨1, false, [1]⟩ ⟨7, none⟩ (by decide)
    (by decide)
  refine ⟨h.1, h.2.1, ?_, ?_⟩
  · rw [h.2.2.2.2.1]; decide
  · rw [h.2.2.2.2.2 1]; decide

/-- ScheduleJob's effect on active_jobs: no-op at the max_jobs gate,
plus one exactly when the camera produced a ray, unchanged when it
returned false. -/
theorem ScheduleJob_active {P : GP} (maxJobs : Nat) (rng : Nat → ℚ × ℚ) (s : DState P) :
    (maxJobs ≤ s.active_jobs → ScheduleJob maxJobs rng s = s) ∧
    ((s.cam.GeneratePrimary (FatRay.fresh P) (rng s.rngIx)).1 = true →
      s.active_jobs < maxJobs →
      (ScheduleJob maxJobs rng s).active_jobs = s.active_jobs + 1) ∧
    ((s.cam.GeneratePrimary (FatRay.fresh P) (rng s.rngIx)).1 = false →
      (ScheduleJob maxJobs rng s).active_jobs = s.active_jobs) := by
  refine ⟨?_, ?_, ?_⟩
  · intro h
    unfold ScheduleJob
    rw [if_pos h]
  · intro hgen hlt
    unfold ScheduleJob
    rw [if_neg (Nat.not_le.mpr hlt)]
    split
    next => rfl
    next heq => rw [heq] at hgen; exact Bool.noConfusion hgen
  · intro hgen
    unfold ScheduleJob
    split
    · rfl
    · split
      next heq => rw [heq] at hgen; exact Bool.noConfusion hgen
      next => rfl

/-- ScheduleJob preserves the active_jobs bound. -/
theorem ScheduleJob_le {P : GP} (maxJobs : Nat) (rng : Nat → ℚ × ℚ) (s : DState P)
    (h : s.active_jobs ≤ maxJobs) :
    (ScheduleJob maxJobs rng s).active_jobs ≤ maxJobs := by
  unfold ScheduleJob
  split
  next => exact h
  next hge =>
    split
    next => show s.active_jobs + 1 ≤ maxJobs; omega
    next => exact h

/-- AfterWork's shape on a non-empty queue: decrement by exactly one,
then StopRender at zero, ScheduleJob otherwise. -/
theorem CompleteJob_shape {P : GP} (maxJobs : Nat)
    (shade : FatRay P → WorkResults → WorkResults) (lib : Library P) (rng : Nat → ℚ × ℚ)
    (s : DState P) (ray : FatRay P) (rest : List (FatRay P)) (h : s.inflight = ray :: rest) :
    ∃ mid : DState P, mid.active_jobs = s.active_jobs - 1 ∧ mid.cam = s.cam ∧
      CompleteJob maxJobs shade lib rng s =
        (if mid.active_jobs = 0 then StopRender mid else ScheduleJob maxJobs rng mid) := by
  refine ⟨{ s with
    inflight := rest
    stats := s.stats.merge (ProcessRay shade lib ray WorkResults.fresh)
    active_jobs := s.active_jobs - 1 }, rfl, rfl, ?_⟩
  unfold CompleteJob
  rw [h]

/-- CompleteJob preserves the active_jobs bound. -/
theorem CompleteJob_le {P : GP} (maxJobs : Nat)
    (shade : FatRay P → WorkResults → WorkResults) (lib : Library P) (rng : Nat → ℚ × ℚ)
    (s : DState P) (h : s.active_jobs ≤ maxJobs) :
    (CompleteJob maxJobs shade lib rng s).active_jobs ≤ maxJobs := by
  cases hq : s.inflight with
  | nil => unfold CompleteJob; rw [hq]; exact h
  | cons ray rest =>
      obtain ⟨mid, hmid, _, heq⟩ := CompleteJob_shape maxJobs shade lib rng s ray rest hq
      rw [heq]
      split
      · show mid.active_jobs ≤ maxJobs; omega
      · exact ScheduleJob_le maxJobs rng mid (by omega)

/-- The initial seeding loop respects the bound. -/
theorem initJobs_le {P : GP} (maxJobs : Nat) (rng : Nat → ℚ × ℚ) (cam : Camera P) :
    (initJobs maxJobs rng cam).active_jobs ≤ maxJobs := by
  unfold initJobs
  have : ∀ (k : Nat) (w : DState P), w.active_jobs ≤ maxJobs →
      ((ScheduleJob maxJobs rng)^[k] w).active_jobs ≤ maxJobs := by
    intro k
    induction k with
    | zero => intro w hw; exact hw
    | succ k ihk =>
        intro w hw
        rw [Function.iterate_succ_apply]
        exact ihk _ (ScheduleJob_le maxJobs rng w hw)
  exact this maxJobs _ (Nat.zero_le _)

/-- C3: in every reachable dispatcher state active_jobs ≤ max_jobs;
ScheduleJob returns unchanged at the gate, increments active_jobs by
exactly 1 exactly when the camera produced a primary ray; AfterWork
decrements by exactly 1 and then calls StopRender when active_jobs
reached 0 and ScheduleJob otherwise. -/
theorem C3_active_jobs_invariant {P : GP} (maxJobs mi : Nat)
    (shade : FatRay P → WorkResults → WorkResults) (lib : Library P) (rng : Nat → ℚ × ℚ)
    (s : DState P) (hs : Reach maxJobs mi shade lib rng s) :
    s.active_jobs ≤ maxJobs ∧
    (∀ u : DState P, maxJobs ≤ u.active_jobs → ScheduleJob maxJobs rng u = u) ∧
    (∀ u : DState P, (u.cam.GeneratePrimary (FatRay.fresh P) (rng u.rngIx)).1 = true →
      u.active_jobs < maxJobs →
      (ScheduleJob maxJobs rng u).active_jobs = u.active_jobs + 1) ∧
    (∀ u : DState P, (u.cam.GeneratePrimary (FatRay.fresh P) (rng u.rngIx)).1 = false →
      (ScheduleJob maxJobs rng u).active_jobs = u.active_jobs) ∧
    (∀ (u : DState P) (ray : FatRay P) (rest : List (FatRay P)), u.inflight = ray :: rest →
      ∃ mid : DState P, mid.active_jobs = u.active_jobs - 1 ∧
        CompleteJob maxJobs shade lib rng u =
          (if mid.active_jobs = 0 then StopRender mid else ScheduleJob maxJobs rng mid)) := by
  refine ⟨?_, ?_, ?_, ?_, ?_⟩
  · induction hs with
    | init cam => exact initJobs_le maxJobs rng cam
    | complete hu hne ih => exact CompleteJob_le maxJobs shade lib rng _ ih
    | tick hu ih => exact ih
  · intro u hu; exact (ScheduleJob_active maxJobs rng u).1 hu
  · intro u h1 h2; exact (ScheduleJob_active maxJobs rng u).2.1 h1 h2
  · intro u h1; exact (ScheduleJob_active maxJobs rng u).2.2 h1
  · intro u ray rest hq
    obtain ⟨mid, h1, _, h3⟩ := CompleteJob_shape maxJobs shade lib rng u ray rest hq
    exact ⟨mid, h1, h3⟩

/-- Evaluation of the C3 invariant at the freshly seeded engine: two
scheduled jobs against max_jobs = 2. -/
theorem C3_active_jobs_invariant_witness :
    (initJobs 2 rng0 camA).active_jobs ≤ 2 :=
  (C3_active_jobs_invariant 2 0 shade0 lib0 rng0 _ (Reach.init camA)).1

/-- The effective radix facts omega needs about aRad. -/
theorem aRad_facts (A : Nat) : A ≤ aRad A ∧ 1 ≤ aRad A ∧ (aRad A = A ∨ aRad A = 1) := by
  unfold aRad; omega

/-- Distributing a successor over a product, in +1 form for omega. -/
theorem succ_mul' (a b : Nat) : (a + 1) * b = a * b + b := by ring

/-- The odometer step: advancing a valid in-chunk cursor bumps its rank
by exactly one and stays valid — this is the j → i → y → x order. -/
theorem advance_spec (A H offset : Nat) (c : Cursor) (hv : c.Valid A H offset) (hH : 0 < H) :
    (c.advance A H).encode A H offset = c.encode A H offset + 1 ∧
      (c.advance A H).Valid A H offset := by
  obtain ⟨cx, cy, ci, cj⟩ := c
  obtain ⟨hx, hy, hi, hj⟩ := hv
  have hA := aRad_facts A
  unfold Cursor.advance Cursor.encode Cursor.Valid at *
  dsimp only at *
  have hX : cx + 1 - offset = (cx - offset) + 1 := by omega
  split_ifs with h1 h2 h3
  · -- j, i and y all wrap: x advances
    have hy' : cy + 1 = H := by omega
    have hi' : ci + 1 = aRad A := by omega
    have hj' : cj + 1 = aRad A := by omega
    dsimp only
    rw [hX]
    refine ⟨?_, by omega⟩
    generalize aRad A = a at hi' hj' ⊢
    subst hi'
    obtain rfl : cj = ci := by omega
    subst hy'
    ring
  · -- j and i wrap: y advances
    have hi' : ci + 1 = aRad A := by omega
    have hj' : cj + 1 = aRad A := by omega
    dsimp only
    refine ⟨?_, by omega⟩
    generalize aRad A = a at hi' hj' ⊢
    subst hi'
    obtain rfl : cj = ci := by omega
    ring
  · -- j wraps: i advances
    have hj' : cj + 1 = aRad A := by omega
    dsimp only
    refine ⟨?_, by omega⟩
    generalize aRad A = a at hj' ⊢
    subst hj'
    ring
  · -- j advances
    dsimp only
    exact ⟨by ring, by omega⟩

/-- Any cursor at or past the chunk end ranks at least the chunk total. -/
theorem encode_ge_total (A H offset endx : Nat) (c : Cursor) (hv : c.Valid A H offset)
    (hx : endx ≤ c.x) :
    (endx - offset) * H * (aRad A * aRad A) ≤ c.encode A H offset := by
  obtain ⟨hx0, hy, hi, hj⟩ := hv
  unfold Cursor.encode
  calc (endx - offset) * H * (aRad A * aRad A)
      ≤ (c.x - offset) * H * (aRad A * aRad A) := by
        apply Nat.mul_le_mul_right
        apply Nat.mul_le_mul_right
        omega
    _ = ((c.x - offset) * H) * aRad A * aRad A := by ring
    _ ≤ (((c.x - offset) * H + c.y) * aRad A + c.i) * aRad A := by
        apply Nat.mul_le_mul_right
        calc ((c.x - offset) * H) * aRad A
            ≤ ((c.x - offset) * H + c.y) * aRad A := by
              apply Nat.mul_le_mul_right; omega
          _ ≤ ((c.x - offset) * H + c.y) * aRad A + c.i := Nat.le_add_right _ _
    _ ≤ (((c.x - offset) * H + c.y) * aRad A + c.i) * aRad A + c.j := Nat.le_add_right _ _

/-- Any valid cursor strictly inside the chunk ranks strictly below the
chunk total. -/
theorem encode_lt_total (A H offset endx : Nat) (c : Cursor) (hv : c.Valid A H offset)
    (hx : c.x < endx) :
    c.encode A H offset < (endx - offset) * H * (aRad A * aRad A) := by
  obtain ⟨hx0, hy, hi, hj⟩ := hv
  unfold Cursor.encode
  have step1 : (((c.x - offset) * H + c.y) * aRad A + c.i) * aRad A + c.j + 1
      ≤ (((c.x - offset) * H + c.y) * aRad A + c.i + 1) * aRad A := by
    have := succ_mul' (((c.x - offset) * H + c.y) * aRad A + c.i) (aRad A)
    omega
  have step2 : (((c.x - offset) * H + c.y) * aRad A + c.i + 1) * aRad A
      ≤ (((c.x - offset) * H + c.y + 1) * aRad A) * aRad A := by
    apply Nat.mul_le_mul_right
    have := succ_mul' ((c.x - offset) * H + c.y) (aRad A)
    omega
  have step3 : (((c.x - offset) * H + c.y + 1) * aRad A) * aRad A
      ≤ (((c.x - offset) + 1) * H * aRad A) * aRad A := by
    apply Nat.mul_le_mul_right
    apply Nat.mul_le_mul_right
    have := succ_mul' (c.x - offset) H
    omega
  have step4 : (((c.x - offset) + 1) * H * aRad A) * aRad A
      ≤ ((endx - offset) * H * aRad A) * aRad A := by
    apply Nat.mul_le_mul_right
    apply Nat.mul_le_mul_right
    apply Nat.mul_le_mul_right
    omega
  have shape : ((endx - offset) * H * aRad A) * aRad A
      = (endx - offset) * H * (aRad A * aRad A) := by ring
  omega

/-- Reading the pixel back off a cursor's rank. -/
theorem encode_pix (A H offset : Nat) (c : Cursor) (hv : c.Valid A H offset) (hH : 0 < H) :
    pixOf A H offset (c.encode A H offset) = (c.x, c.y) := by
  obtain ⟨hx0, hy, hi, hj⟩ := hv
  have ha := aRad_facts A
  have hq : 0 < aRad A * aRad A := Nat.mul_pos ha.2.1 ha.2.1
  have hsplit : c.encode A H offset
      = c.i * aRad A + c.j + (aRad A * aRad A) * ((c.x - offset) * H + c.y) := by
    unfold Cursor.encode; ring
  have hrlt : c.i * aRad A + c.j < aRad A * aRad A := by
    have h1 : c.i * aRad A + c.j + 1 ≤ (c.i + 1) * aRad A := by
      have := succ_mul' c.i (aRad A)
      omega
    have h2 : (c.i + 1) * aRad A ≤ aRad A * aRad A := by
      apply Nat.mul_le_mul_right
      omega
    omega
  have hdiv : c.encode A H offset / (aRad A * aRad A) = (c.x - offset) * H + c.y := by
    rw [hsplit, Nat.add_mul_div_left _ _ hq, Nat.div_eq_of_lt hrlt, Nat.zero_add]
  unfold pixOf
  rw [hdiv]
  have hcomm : (c.x - offset) * H + c.y = c.y + H * (c.x - offset) := by ring
  rw [hcomm, Nat.add_mul_div_left _ _ hH, Nat.div_eq_of_lt hy, Nat.zero_add,
    Nat.add_mul_mod_self_left, Nat.mod_eq_of_lt hy]
  have hox : offset + (c.x - offset) = c.x := by omega
  rw [hox]

/-- Characterization of a fuelled camera run that exactly drains the
chunk: the emitted rays, projected to (pixel x, pixel y, transmittance),
enumerate the cursor ranks in generation order, and the run ends with a
valid cursor of rank equal to the chunk total. -/
theorem runRays_spec {P : GP} (rng : Nat → ℚ × ℚ) (A H offset endx : Nat) (hH : 0 < H) :
    ∀ (fuel : Nat) (cam : Camera P) (n : Nat),
      cam.antialiasing = A → cam.height = H → cam.offset = offset → cam.endx = endx →
      (cam.cursor).Valid A H offset →
      (cam.cursor).encode A H offset + fuel = (endx - offset) * H * (aRad A * aRad A) →
      (runRays fuel cam rng n).1.map rayProj =
        (List.range fuel).map (fun k =>
          ((pixOf A H offset ((cam.cursor).encode A H offset + k)).1,
           (pixOf A H offset ((cam.cursor).encode A H offset + k)).2,
           (if A ≤ 1 then (1 : ℚ) else 1 / ((A : ℚ) * (A : ℚ))))) ∧
       ((runRays fuel cam rng n).2.cursor).Valid A H offset ∧
       ((runRays fuel cam rng n).2.cursor).encode A H offset =
         (endx - offset) * H * (aRad A * aRad A) ∧
       (runRays fuel cam rng n).2.antialiasing = A ∧
       (runRays fuel cam rng n).2.height = H ∧
       (runRays fuel cam rng n).2.offset = offset ∧
       (runRays fuel cam rng n).2.endx = endx := by
  intro fuel
  induction fuel with
  | zero =>
      intro cam n hA hHt hoff hend hv henc
      refine ⟨by simp [runRays], hv, ?_, hA, hHt, hoff, hend⟩
      show (Camera.cursor cam).encode A H offset = _
      omega
  | succ fuel ih =>
      intro cam n hA hHt hoff hend hv henc
      have htot := henc
      have hxlt : cam.x < cam.endx := by
        by_contra hge
        have hge' : endx ≤ (Camera.cursor cam).x := by
          show endx ≤ cam.x; omega
        have := encode_ge_total A H offset endx cam.cursor hv hge'
        omega
      obtain ⟨hg1, _, _, _, hg5, hg6, _, hg8, hg9, hg10, hg11, hg12, hg13⟩ :=
        generate_true cam (FatRay.fresh P) (rng n) hxlt
      rcases hEq : cam.GeneratePrimary (FatRay.fresh P) (rng n) with ⟨b, cam', ray'⟩
      cases b with
      | false =>
          rw [hEq] at hg1
          exact absurd hg1 (by simp)
      | true =>
          rw [hEq] at hg1 hg5 hg6 hg8 hg9 hg10 hg11 hg12 hg13
          dsimp only at hg5 hg6 hg8 hg9 hg10 hg11 hg12 hg13
          have hrun : runRays (fuel + 1) cam rng n =
              (ray' :: (runRays fuel cam' rng (n + 1)).1, (runRays fuel cam' rng (n + 1)).2) := by
            simp only [runRays, hEq]
          rw [hA, hHt] at hg9
          have hadv := advance_spec A H offset cam.cursor hv hH
          have hv' : (cam'.cursor).Valid A H offset := by rw [hg9]; exact hadv.2
          have hencadv : (cam'.cursor).encode A H offset =
              (cam.cursor).encode A H offset + 1 := by rw [hg9]; exact hadv.1
          have henc' : (cam'.cursor).encode A H offset + fuel =
              (endx - offset) * H * (aRad A * aRad A) := by omega
          obtain ⟨ihm, ihv, ihe, ihA, ihH, ihO, ihE⟩ := ih cam' (n + 1) (hg13.trans hA)
            (hg12.trans hHt) (hg11.trans hoff) (hg10.trans hend) hv' henc'
          rw [hrun]
          refine ⟨?_, ihv, ihe, ihA, ihH, ihO, ihE⟩
          simp only [hencadv] at ihm
          have hhead : rayProj ray' =
              ((pixOf A H offset ((cam.cursor).encode A H offset + 0)).1,
               (pixOf A H offset ((cam.cursor).encode A H offset + 0)).2,
               (if A ≤ 1 then (1 : ℚ) else 1 / ((A : ℚ) * (A : ℚ)))) := by
            have hpix := encode_pix A H offset cam.cursor hv hH
            unfold rayProj
            rw [hg5, hg6, hg8, Nat.add_zero, hpix]
            show (cam.x, cam.y, cam.transOf) = ((Camera.cursor cam).x, (Camera.cursor cam).y, _)
            unfold Camera.transOf
            rw [hA]
            rfl
          rw [List.map_cons, List.range_succ_eq_map, List.map_cons, List.map_map, hhead]
          congr 1
          rw [ihm]
          apply List.map_congr_left
          intro k _
          simp only [Function.comp]
          have hsh : (cam.cursor).encode A H offset + 1 + k =
              (cam.cursor).encode A H offset + Nat.succ k := by omega
          rw [hsh]

/-- Division equals a value exactly on one interval. -/
theorem div_eq_iff_interval (k q v : Nat) (hq : 0 < q) :
    k / q = v ↔ v * q ≤ k ∧ k < (v + 1) * q := by
  constructor
  · rintro rfl
    exact ⟨Nat.div_mul_le_self k q, (Nat.div_lt_iff_lt_mul hq).mp (Nat.lt_succ_self _)⟩
  · rintro ⟨h1, h2⟩
    have hub : k / q < v + 1 := (Nat.div_lt_iff_lt_mul hq).mpr h2
    have hlb : v ≤ k / q := (Nat.le_div_iff_mul_le hq).mpr h1
    omega

/-- The ranks addressed to one pixel form one contiguous block of length
(aRad A)². -/
theorem pix_interval (A H offset : Nat) (hH : 0 < H) (px py : Nat)
    (hpx1 : offset ≤ px) (hpy : py < H) (k : Nat) :
    pixOf A H offset k = (px, py) ↔
      ((px - offset) * H + py) * (aRad A * aRad A) ≤ k ∧
        k < ((px - offset) * H + py + 1) * (aRad A * aRad A) := by
  have ha := aRad_facts A
  have hq : 0 < aRad A * aRad A := Nat.mul_pos ha.2.1 ha.2.1
  rw [← div_eq_iff_interval k (aRad A * aRad A) ((px - offset) * H + py) hq]
  unfold pixOf
  rw [Prod.mk.injEq]
  have hcm : H * (px - offset) = (px - offset) * H := Nat.mul_comm _ _
  constructor
  · rintro ⟨h1, h2⟩
    have hdivH : k / (aRad A * aRad A) / H = px - offset := by omega
    have hmod := Nat.div_add_mod (k / (aRad A * aRad A)) H
    rw [hdivH, h2] at hmod
    omega
  · intro hu
    have hcomm : k / (aRad A * aRad A) = py + H * (px - offset) := by omega
    rw [hcomm, Nat.add_mul_div_left _ _ hH, Nat.div_eq_of_lt hpy, Nat.zero_add,
      Nat.add_mul_mod_self_left, Nat.mod_eq_of_lt hpy]
    omega

/-- Counting an interval inside an initial segment. -/
theorem countP_range_min (lo hi : Nat) (N : Nat) :
    (List.range N).countP (fun k => decide (lo ≤ k ∧ k < hi)) = min hi N - min lo N := by
  induction N with
  | zero => simp
  | succ N ihN =>
      rw [List.range_succ, List.countP_append, ihN]
      by_cases hN : lo ≤ N ∧ N < hi
      · have : List.countP (fun k => decide (lo ≤ k ∧ k < hi)) [N] = 1 := by
          simp [List.countP_cons, hN.1, hN.2]
        rw [this]
        omega
      · have : List.countP (fun k => decide (lo ≤ k ∧ k < hi)) [N] = 0 := by
          simp only [List.countP_cons, List.countP_nil]
          rw [if_neg (by simpa using hN)]
        rw [this]
        omega

/-- A ray list with constant transmittance sums to count times the
constant. -/
theorem tSum_const {P : GP} (L : List (FatRay P)) (τ : ℚ)
    (h : ∀ r ∈ L, r.transmittance = τ) : tSum L = L.length * τ := by
  induction L with
  | nil => simp [tSum]
  | cons r rest ihr =>
      have hr : r.transmittance = τ := h r (by simp)
      have hrest : tSum rest = rest.length * τ :=
        ihr (fun x hx => h x (by simp [hx]))
      unfold tSum at *
      simp only [List.map_cons, List.sum_cons, List.length_cons]
      rw [hr, hrest]
      push_cast
      ring

/-- C2: over a complete sequence of GeneratePrimary calls (until the
first false return), every pixel (px, py) of the camera's chunk is the
subject of exactly A² primary rays when the antialiasing factor A exceeds
1 — each of transmittance 1/A², so they sum to 1 — and of exactly one
primary ray of transmittance 1 when A ≤ 1 (the sum again 1); the cursor
advances in the j → i → y → x order (each generated ray bumps the
cursor's j-fastest mixed-radix rank by exactly one). -/
theorem C2_camera_coverage {P : GP} (cam : Camera P) (rng : Nat → ℚ × ℚ) (px py : Nat)
    (hx0 : cam.x = cam.offset) (hy0 : cam.y = 0) (hi0 : cam.i = 0) (hj0 : cam.j = 0)
    (hH : 0 < cam.height) (hpx1 : cam.offset ≤ px) (hpx2 : px < cam.endx)
    (hpy : py < cam.height) :
    (1 < cam.antialiasing →
      ((cam.fullRun rng).1.filter (fun r => r.x == px && r.y == py)).length =
        cam.antialiasing * cam.antialiasing ∧
      ∀ r ∈ (cam.fullRun rng).1.filter (fun r => r.x == px && r.y == py),
        r.transmittance = 1 / ((cam.antialiasing : ℚ) * (cam.antialiasing : ℚ))) ∧
    (cam.antialiasing ≤ 1 →
      ((cam.fullRun rng).1.filter (fun r => r.x == px && r.y == py)).length = 1 ∧
      ∀ r ∈ (cam.fullRun rng).1.filter (fun r => r.x == px && r.y == py),
        r.transmittance = 1) ∧
    tSum ((cam.fullRun rng).1.filter (fun r => r.x == px && r.y == py)) = 1 ∧
    (∀ (ray : FatRay P) (jit : ℚ × ℚ),
      ((cam.fullRun rng).2.GeneratePrimary ray jit).1 = false) ∧
    (∀ c : Cursor, c.Valid cam.antialiasing cam.height cam.offset →
      (c.advance cam.antialiasing cam.height).encode cam.antialiasing cam.height cam.offset =
        c.encode cam.antialiasing cam.height cam.offset + 1) := by
  have ha := aRad_facts cam.antialiasing
  have hv0 : (cam.cursor).Valid cam.antialiasing cam.height cam.offset := by
    unfold Cursor.Valid
    dsimp only [Camera.cursor]
    omega
  have he0 : (cam.cursor).encode cam.antialiasing cam.height cam.offset = 0 := by
    unfold Cursor.encode
    dsimp only [Camera.cursor]
    rw [hx0, hy0, hi0, hj0]
    simp
  have henc0 : (cam.cursor).encode cam.antialiasing cam.height cam.offset + cam.total =
      (cam.endx - cam.offset) * cam.height *
        (aRad cam.antialiasing * aRad cam.antialiasing) := by
    rw [he0, Nat.zero_add]
    rfl
  obtain ⟨hmap, hfv, hfe, hfA, hfH, hfO, hfE⟩ := runRays_spec rng cam.antialiasing cam.height
    cam.offset cam.endx hH cam.total cam 0 rfl rfl rfl rfl hv0 henc0
  simp only [he0, Nat.zero_add] at hmap
  -- the per-ray transmittance
  have htr : ∀ r ∈ (runRays cam.total cam rng 0).1,
      r.transmittance =
        (if cam.antialiasing ≤ 1 then (1 : ℚ)
         else 1 / ((cam.antialiasing : ℚ) * (cam.antialiasing : ℚ))) := by
    intro r hr
    have hmem : rayProj r ∈ (runRays cam.total cam rng 0).1.map rayProj :=
      List.mem_map_of_mem rayProj hr
    rw [hmap] at hmem
    obtain ⟨k, _, hk⟩ := List.mem_map.mp hmem
    have : (rayProj r).2.2 =
        (if cam.antialiasing ≤ 1 then (1 : ℚ)
         else 1 / ((cam.antialiasing : ℚ) * (cam.antialiasing : ℚ))) := by
      rw [← hk]
    exact this
  -- the pixel's ray count
  have hcount : ((runRays cam.total cam rng 0).1.filter
        (fun r => r.x == px && r.y == py)).length =
      aRad cam.antialiasing * aRad cam.antialiasing := by
    rw [← List.countP_eq_length_filter]
    have hq : List.countP (fun r : FatRay P => r.x == px && r.y == py)
          (runRays cam.total cam rng 0).1 =
        List.countP (fun t : Nat × Nat × ℚ => t.1 == px && t.2.1 == py)
          ((runRays cam.total cam rng 0).1.map rayProj) := by
      rw [List.countP_map]
      rfl
    rw [hq, hmap, List.countP_map]
    have hpt : ∀ k ∈ List.range cam.total,
        ((fun t : Nat × Nat × ℚ => t.1 == px && t.2.1 == py) ∘
          (fun k => ((pixOf cam.antialiasing cam.height cam.offset k).1,
            (pixOf cam.antialiasing cam.height cam.offset k).2,
            (if cam.antialiasing ≤ 1 then (1 : ℚ)
             else 1 / ((cam.antialiasing : ℚ) * (cam.antialiasing : ℚ)))))) k = true ↔
        (fun k => decide
          (((px - cam.offset) * cam.height + py) *
              (aRad cam.antialiasing * aRad cam.antialiasing) ≤ k ∧
            k < ((px - cam.offset) * cam.height + py + 1) *
              (aRad cam.antialiasing * aRad cam.antialiasing))) k = true := by
      intro k _
      have hiff := pix_interval cam.antialiasing cam.height cam.offset hH px py hpx1 hpy k
      rw [Prod.mk.injEq] at hiff
      have hiff2 : ((pixOf cam.antialiasing cam.height cam.offset k).1 = px ∧
          (pixOf cam.antialiasing cam.height cam.offset k).2 = py) ↔
          (((px - cam.offset) * cam.height + py) *
              (aRad cam.antialiasing * aRad cam.antialiasing) ≤ k ∧
            k < ((px - cam.offset) * cam.height + py + 1) *
              (aRad cam.antialiasing * aRad cam.antialiasing)) := hiff
      simp only [Function.comp, Bool.and_eq_true, beq_iff_eq, decide_eq_true_eq]
      exact hiff2
    rw [List.countP_congr hpt, countP_range_min]
    have hhile : ((px - cam.offset) * cam.height + py + 1) *
        (aRad cam.antialiasing * aRad cam.antialiasing) ≤ cam.total := by
      show _ ≤ (cam.endx - cam.offset) * cam.height *
        (aRad cam.antialiasing * aRad cam.antialiasing)
      apply Nat.mul_le_mul_right
      have h1 : (px - cam.offset) * cam.height + py + 1 ≤
          ((px - cam.offset) + 1) * cam.height := by
        have := succ_mul' (px - cam.offset) cam.height
        omega
      have h2 : ((px - cam.offset) + 1) * cam.height ≤
          (cam.endx - cam.offset) * cam.height := by
        apply Nat.mul_le_mul_right
        omega
      omega
    have hloheq : (((px - cam.offset) * cam.height + py + 1) *
          (aRad cam.antialiasing * aRad cam.antialiasing)) -
        (((px - cam.offset) * cam.height + py) *
          (aRad cam.antialiasing * aRad cam.antialiasing)) =
        aRad cam.antialiasing * aRad cam.antialiasing := by
      have := succ_mul' ((px - cam.offset) * cam.height + py)
        (aRad cam.antialiasing * aRad cam.antialiasing)
      omega
    have hlole : ((px - cam.offset) * cam.height + py) *
          (aRad cam.antialiasing * aRad cam.antialiasing) ≤
        ((px - cam.offset) * cam.height + py + 1) *
          (aRad cam.antialiasing * aRad cam.antialiasing) := by
      have := succ_mul' ((px - cam.offset) * cam.height + py)
        (aRad cam.antialiasing * aRad cam.antialiasing)
      omega
    omega
  have hfilter_sub : ∀ r ∈ (runRays cam.total cam rng 0).1.filter
      (fun r => r.x == px && r.y == py), r ∈ (runRays cam.total cam rng 0).1 := by
    intro r hr
    exact List.mem_of_mem_filter hr
  unfold Camera.fullRun
  refine ⟨?_, ?_, ?_, ?_, ?_⟩
  · intro hA1
    have haA : aRad cam.antialiasing = cam.antialiasing := by omega
    refine ⟨by rw [hcount, haA], ?_⟩
    intro r hr
    have := htr r (hfilter_sub r hr)
    rwa [if_neg (by omega)] at this
  · intro hA1
    have haA : aRad cam.antialiasing = 1 := by omega
    refine ⟨by rw [hcount, haA], ?_⟩
    intro r hr
    have := htr r (hfilter_sub r hr)
    rwa [if_pos hA1] at this
  · -- transmittance sum
    have hsum := tSum_const ((runRays cam.total cam rng 0).1.filter
        (fun r => r.x == px && r.y == py))
      (if cam.antialiasing ≤ 1 then (1 : ℚ)
       else 1 / ((cam.antialiasing : ℚ) * (cam.antialiasing : ℚ)))
      (fun r hr => htr r (hfilter_sub r hr))
    rw [hsum, hcount]
    by_cases hA1 : cam.antialiasing ≤ 1
    · have haA : aRad cam.antialiasing = 1 := by omega
      rw [if_pos hA1, haA]
      norm_num
    · have haA : aRad cam.antialiasing = cam.antialiasing := by omega
      have hAne : (cam.antialiasing : ℚ) ≠ 0 := by
        have : 2 ≤ cam.antialiasing := by omega
        exact_mod_cast by omega
      rw [if_neg hA1, haA]
      push_cast
      field_simp
  · -- the run is complete: the next call returns false
    intro ray jit
    have hxe : (runRays cam.total cam rng 0).2.endx ≤ (runRays cam.total cam rng 0).2.x := by
      by_contra hlt
      have hxlt : ((runRays cam.total cam rng 0).2.cursor).x <
          (runRays cam.total cam rng 0).2.endx := by
        show (runRays cam.total cam rng 0).2.x < _
        omega
      rw [hfE] at hxlt
      have := encode_lt_total cam.antialiasing cam.height cam.offset cam.endx
        ((runRays cam.total cam rng 0).2.cursor) hfv hxlt
      omega
    rw [generate_false _ ray jit hxe]
  · intro c hvc
    exact (advance_spec cam.antialiasing cam.height cam.offset c hvc hH).1

/-- Evaluation of the camera-coverage theorem on the 2×1 chunk with 2×2
supersampling at pixel (1, 0): exactly four primary rays, transmittances
summing to 1. -/
theorem C2_camera_coverage_witness :
    ((camA.fullRun rng0).1.filter (fun r => r.x == 1 && r.y == 0)).length = 4 ∧
    tSum ((camA.fullRun rng0).1.filter (fun r => r.x == 1 && r.y == 0)) = 1 :=
  ⟨((C2_camera_coverage camA rng0 1 0 rfl rfl rfl rfl (by decide) (by decide) (by decide)
      (by decide)).1 (by decide)).1,
   (C2_camera_coverage camA rng0 1 0 rfl rfl rfl rfl (by decide) (by decide) (by decide)
      (by decide)).2.2.1⟩

/-- The cursor's x never decreases. -/
theorem advance_x_mono (A H : Nat) (c : Cursor) : c.x ≤ (c.advance A H).x := by
  unfold Cursor.advance
  split_ifs <;> dsimp only <;> omega

/-- The shader bridge does not touch the engine's kill counters, so
IlluminateIntersection leaves intersects_killed alone. -/
theorem Illuminate_counters {P : GP} (shade : FatRay P → WorkResults → WorkResults)
    (lib : Library P) (ray : FatRay P) (results : WorkResults)
    (hshade : ∀ (r : FatRay P) (w : WorkResults),
      (shade r w).intersects_killed = w.intersects_killed) :
    (IlluminateIntersection shade lib ray results).intersects_killed =
      results.intersects_killed := by
  unfold IlluminateIntersection
  split
  · split
    · split
      · exact hshade _ _
      · rfl
    · rfl
  · rfl

/-- ProcessIntersect increments intersects_killed by exactly 1 whether or
not the ray hit anything, and runs IlluminateIntersection exactly when
the intersection pass left hit.worker > 0. -/
theorem ProcessIntersect_spec {P : GP} (shade : FatRay P → WorkResults → WorkResults)
    (lib : Library P) (ray : FatRay P) (results : WorkResults)
    (hshade : ∀ (r : FatRay P) (w : WorkResults),
      (shade r w).intersects_killed = w.intersects_killed) :
    (ProcessIntersect shade lib ray results).intersects_killed =
      results.intersects_killed + 1 ∧
    (0 < (lib.Intersect ray 1).hit.worker →
      ProcessIntersect shade lib ray results =
        { IlluminateIntersection shade lib (lib.Intersect ray 1) results with
          intersects_killed :=
            (IlluminateIntersection shade lib (lib.Intersect ray 1) results).intersects_killed
              + 1 }) ∧
    ((lib.Intersect ray 1).hit.worker = 0 →
      ProcessIntersect shade lib ray results =
        { results with intersects_killed := results.intersects_killed + 1 }) := by
  simp only [ProcessIntersect]
  by_cases hw : 0 < (lib.Intersect ray 1).hit.worker
  · rw [if_pos hw]
    refine ⟨?_, fun _ => rfl, fun h0 => absurd h0 (by omega)⟩
    show (IlluminateIntersection shade lib (lib.Intersect ray 1) results).intersects_killed + 1
      = results.intersects_killed + 1
    rw [Illuminate_counters shade lib _ _ hshade]
  · rw [if_neg hw]
    exact ⟨rfl, fun h => absurd h hw, fun _ => rfl⟩

/-- A mesh table of null slots contributes nothing to the BVH pass. -/
theorem foldl_meshstep_none {P : GP} (me : Nat) (r : SlimRay P.V P.D)
    (l : List (Nat × Option (Mesh P))) (acc : HitRecord P.G)
    (h : ∀ p ∈ l, p.2 = none) :
    l.foldl (bvhMeshStep P me r) acc = acc := by
  induction l generalizing acc with
  | nil => rfl
  | cons p rest ihp =>
      rw [List.foldl_cons]
      have hp2 : p.2 = none := h p (by simp)
      have hstep : bvhMeshStep P me r acc p = acc := by
        obtain ⟨id, mo⟩ := p
        cases hp2
        cases id <;> rfl
      rw [hstep]
      exact ihp _ (fun q hq => h q (by simp [hq]))

/-- Intersect against a library with no meshes leaves the ray
unchanged. -/
theorem Intersect_empty {P : GP} (lib : Library P) (ray : FatRay P) (me : Nat)
    (hm : ∀ x ∈ lib.meshes, x = none) :
    lib.Intersect ray me = ray := by
  unfold Library.Intersect
  rw [foldl_meshstep_none]
  · unfold finishIntersect
    rw [if_neg]
    rintro ⟨h0, _⟩
    exact absurd h0 (lt_irrefl 0)
  · intro p hp
    have hget := List.mem_enum_iff_get?.mp hp
    exact hm p.2 (List.get?_mem hget)

/-- ScheduleJob below the gate with a live camera: enqueue the generated
primary. -/
theorem ScheduleJob_gen_true {P : GP} (maxJobs : Nat) (rng : Nat → ℚ × ℚ) (s : DState P)
    (hlt : s.active_jobs < maxJobs) (hx : s.cam.x < s.cam.endx) :
    ∃ cam' ray', s.cam.GeneratePrimary (FatRay.fresh P) (rng s.rngIx) = (true, cam', ray') ∧
      ScheduleJob maxJobs rng s =
        { s with
          cam := cam'
          rngIx := s.rngIx + 1
          inflight := s.inflight ++ [ray']
          active_jobs := s.active_jobs + 1 } := by
  have hg1 := (generate_true s.cam (FatRay.fresh P) (rng s.rngIx) hx).1
  rcases hEq : s.cam.GeneratePrimary (FatRay.fresh P) (rng s.rngIx) with ⟨b, cam', ray'⟩
  cases b with
  | false => rw [hEq] at hg1; exact absurd hg1 (by simp)
  | true =>
      refine ⟨cam', ray', rfl, ?_⟩
      unfold ScheduleJob
      rw [if_neg (Nat.not_le.mpr hlt)]
      simp only [hEq]

/-- ScheduleJob below the gate with an exhausted camera: nothing is
enqueued, only the camera object (basis set-up) and the jitter position
move. -/
theorem ScheduleJob_gen_false {P : GP} (maxJobs : Nat) (rng : Nat → ℚ × ℚ) (s : DState P)
    (hlt : s.active_jobs < maxJobs) (hx : s.cam.endx ≤ s.cam.x) :
    ScheduleJob maxJobs rng s =
      { s with cam := s.cam.initBasis, rngIx := s.rngIx + 1 } := by
  have hEq := generate_false s.cam (FatRay.fresh P) (rng s.rngIx) hx
  unfold ScheduleJob
  rw [if_neg (Nat.not_le.mpr hlt)]
  simp only [hEq]

/-- ProcessIntersect when the pass found nothing: no illumination, just
the kill. -/
theorem ProcessIntersect_noHit {P : GP} (shade : FatRay P → WorkResults → WorkResults)
    (lib : Library P) (ray : FatRay P) (results : WorkResults)
    (h0 : (lib.Intersect ray 1).hit.worker = 0) :
    ProcessIntersect shade lib ray results =
      { results with intersects_killed := results.intersects_killed + 1 } := by
  simp only [ProcessIntersect]
  rw [if_neg (by omega)]

/-- A stopped engine ignores further events. -/
theorem runEngine_stopped {P : GP} (maxJobs : Nat)
    (shade : FatRay P → WorkResults → WorkResults) (lib : Library P) (rng : Nat → ℚ × ℚ)
    (f : Nat) (w : DState P) (hw : w.stopped = true) :
    runEngine maxJobs shade lib rng f w = w := by
  cases f with
  | zero => rfl
  | succ f => simp [runEngine, hw]

/-- Draining the engine on a mesh-free scene with at least two job slots:
from any invariant state with work in flight and enough fuel, the run
stops having killed exactly one INTERSECT ray per generated primary, and
the camera was fully drained. -/
theorem runEngine_drain {P : GP} (maxJobs : Nat)
    (shade : FatRay P → WorkResults → WorkResults) (lib : Library P) (rng : Nat → ℚ × ℚ)
    (cam0 : Camera P) (hH : 0 < cam0.height) (hmax : 2 ≤ maxJobs)
    (hlib : ∀ x ∈ lib.meshes, x = none) :
    ∀ (fuel : Nat) (s : DState P), EngineInv maxJobs cam0 s → s.inflight ≠ [] →
      2 * (cam0.total - (s.cam.cursor).encode cam0.antialiasing cam0.height cam0.offset) +
        s.inflight.length ≤ fuel →
      (runEngine maxJobs shade lib rng fuel s).stopped = true ∧
      (runEngine maxJobs shade lib rng fuel s).stats.intersects_killed = cam0.total := by
  intro fuel
  induction fuel with
  | zero =>
      intro s _ hne hfuel
      exfalso
      have : 0 < s.inflight.length := List.length_pos.mpr hne
      omega
  | succ fuel ih =>
      intro s hinv hne hfuel
      obtain ⟨⟨hA, hHt, hO, hE, hval, hele, hkill, hact, hlemax, hstop, hrays⟩, hfull⟩ := hinv
      obtain ⟨ray, rest, hq⟩ : ∃ ray rest, s.inflight = ray :: rest := by
        cases hql : s.inflight with
        | nil => exact absurd hql hne
        | cons a l => exact ⟨a, l, rfl⟩
      have hlen : s.inflight.length = rest.length + 1 := by rw [hq]; rfl
      have hcx : (Camera.cursor s.cam).x = s.cam.x := rfl
      have htdef : cam0.total = (cam0.endx - cam0.offset) * cam0.height *
          (aRad cam0.antialiasing * aRad cam0.antialiasing) := rfl
      have hstep : runEngine maxJobs shade lib rng (fuel + 1) s =
          runEngine maxJobs shade lib rng fuel (CompleteJob maxJobs shade lib rng s) := by
        simp [runEngine, hstop, hq]
      have hray := hrays ray (by rw [hq]; exact List.mem_cons_self _ _)
      have hIr : lib.Intersect ray 1 = ray := Intersect_empty lib ray 1 hlib
      have hproc : ProcessRay shade lib ray WorkResults.fresh =
          { WorkResults.fresh with intersects_killed := 1 } := by
        unfold ProcessRay
        rw [hray.1]
        exact ProcessIntersect_noHit shade lib ray WorkResults.fresh
          (by rw [hIr]; exact hray.2)
      have hcj : CompleteJob maxJobs shade lib rng s =
          (if s.active_jobs - 1 = 0 then
            StopRender { s with
              inflight := rest
              stats := s.stats.merge (ProcessRay shade lib ray WorkResults.fresh)
              active_jobs := s.active_jobs - 1 }
          else ScheduleJob maxJobs rng { s with
              inflight := rest
              stats := s.stats.merge (ProcessRay shade lib ray WorkResults.fresh)
              active_jobs := s.active_jobs - 1 }) := by
        unfold CompleteJob
        rw [hq]
      have hmerge : (s.stats.merge (ProcessRay shade lib ray WorkResults.fresh)).intersects_killed
          = s.stats.intersects_killed + 1 := by
        rw [hproc]
        rfl
      rw [hstep, hcj]
      by_cases hz : s.active_jobs - 1 = 0
      · -- last in-flight job: StopRender
        rw [if_pos hz]
        rw [runEngine_stopped maxJobs shade lib rng fuel _ rfl]
        have hexh : cam0.endx ≤ s.cam.x := by
          by_contra hnx
          have := hfull hnx
          omega
        have hge := encode_ge_total cam0.antialiasing cam0.height cam0.offset cam0.endx
          (s.cam.cursor) hval (by rw [hcx]; exact hexh)
        refine ⟨rfl, ?_⟩
        show (s.stats.merge (ProcessRay shade lib ray WorkResults.fresh)).intersects_killed
          = cam0.total
        rw [hmerge]
        omega
      · -- more work: reschedule
        rw [if_neg hz]
        have hrestpos : 0 < rest.length := by omega
        have hmidlt : ({ s with
            inflight := rest
            stats := s.stats.merge (ProcessRay shade lib ray WorkResults.fresh)
            active_jobs := s.active_jobs - 1 } : DState P).active_jobs < maxJobs := by
          show s.active_jobs - 1 < maxJobs
          omega
        by_cases hx : s.cam.x < s.cam.endx
        · -- camera still live: a fresh primary replaces the completed one
          obtain ⟨cam', ray', hgen, hsched⟩ := ScheduleJob_gen_true maxJobs rng _ hmidlt hx
          rw [hsched]
          obtain ⟨_, hk2, _, _, hk5, hk6, hk7, _, hk9, hk10, hk11, hk12, hk13⟩ :=
            generate_true s.cam (FatRay.fresh P) (rng s.rngIx) hx
          rw [hgen] at hk2 hk5 hk6 hk7 hk9 hk10 hk11 hk12 hk13
          dsimp only at hk2 hk5 hk6 hk7 hk9 hk10 hk11 hk12 hk13
          rw [hA, hHt] at hk9
          have hadv := advance_spec cam0.antialiasing cam0.height cam0.offset
            (s.cam.cursor) hval hH
          have hlt := encode_lt_total cam0.antialiasing cam0.height cam0.offset cam0.endx
            (s.cam.cursor) hval (by rw [hcx, ← hE]; exact hx)
          have hxmono : s.cam.x ≤ cam'.x := by
            have h1 : cam'.x = ((s.cam.cursor).advance cam0.antialiasing cam0.height).x :=
              congrArg Cursor.x hk9
            have h2 := advance_x_mono cam0.antialiasing cam0.height (s.cam.cursor)
            rw [hcx] at h2
            omega
          apply ih
          · refine ⟨⟨hk13.trans hA, hk12.trans hHt, hk11.trans hO, hk10.trans hE, ?_, ?_, ?_,
              ?_, ?_, hstop, ?_⟩, ?_⟩
            · show (cam'.cursor).Valid cam0.antialiasing cam0.height cam0.offset
              rw [hk9]; exact hadv.2
            · show (cam'.cursor).encode cam0.antialiasing cam0.height cam0.offset ≤ cam0.total
              rw [hk9, hadv.1]
              omega
            · show (s.stats.merge (ProcessRay shade lib ray WorkResults.fresh)).intersects_killed
                + (rest ++ [ray']).length =
                (cam'.cursor).encode cam0.antialiasing cam0.height cam0.offset
              rw [hmerge, hk9, hadv.1, List.length_append]
              simp only [List.length_cons, List.length_nil]
              omega
            · show s.active_jobs - 1 + 1 = (rest ++ [ray']).length
              rw [List.length_append]
              simp only [List.length_cons, List.length_nil]
              omega
            · show (rest ++ [ray']).length ≤ maxJobs
              rw [List.length_append]
              simp only [List.length_cons, List.length_nil]
              omega
            · intro r hr
              rcases List.mem_append.mp hr with hr | hr
              · exact hrays r (by rw [hq]; exact List.mem_cons_of_mem _ hr)
              · have : r = ray' := by simpa using hr
                subst this
                refine ⟨hk2, ?_⟩
                rw [hk7]
                rfl
            · intro hnx
              show (rest ++ [ray']).length = maxJobs
              have hnxs : ¬ cam0.endx ≤ s.cam.x := by
                show ¬ _
                intro hc
                exact hnx (le_trans hc hxmono)
              have := hfull hnxs
              rw [List.length_append]
              simp only [List.length_cons, List.length_nil]
              omega
          · show rest ++ [ray'] ≠ []
            simp
          · show 2 * (cam0.total -
                (cam'.cursor).encode cam0.antialiasing cam0.height cam0.offset) +
              (rest ++ [ray']).length ≤ fuel
            rw [hk9, hadv.1, List.length_append]
            simp only [List.length_cons, List.length_nil]
            omega
        · -- camera exhausted: the queue shrinks by one
          have hxe : s.cam.endx ≤ s.cam.x := by omega
          rw [ScheduleJob_gen_false maxJobs rng _ hmidlt hxe]
          have hib := initBasis_fields s.cam
          have hibc : (s.cam.initBasis).cursor = s.cam.cursor := by
            unfold Camera.cursor
            rw [initBasis_x, initBasis_y, initBasis_i, initBasis_j]
          apply ih
          · refine ⟨⟨(initBasis_aa s.cam).trans hA, (initBasis_height s.cam).trans hHt,
              (initBasis_offset s.cam).trans hO, (initBasis_endx s.cam).trans hE, ?_, ?_, ?_,
              (by show s.active_jobs - 1 = rest.length; omega), ?_, hstop, ?_⟩, ?_⟩
            · show ((s.cam.initBasis).cursor).Valid cam0.antialiasing cam0.height cam0.offset
              rw [hibc]; exact hval
            · show ((s.cam.initBasis).cursor).encode cam0.antialiasing cam0.height cam0.offset
                ≤ cam0.total
              rw [hibc]; exact hele
            · show (s.stats.merge (ProcessRay shade lib ray WorkResults.fresh)).intersects_killed
                + rest.length =
                ((s.cam.initBasis).cursor).encode cam0.antialiasing cam0.height cam0.offset
              rw [hmerge, hibc]
              omega
            · show rest.length ≤ maxJobs
              omega
            · intro r hr
              exact hrays r (by rw [hq]; exact List.mem_cons_of_mem _ hr)
            · intro hnx
              exfalso
              apply hnx
              show cam0.endx ≤ (s.cam.initBasis).x
              rw [initBasis_x, ← hE]
              exact hxe
          · show rest ≠ []
            intro hr0
            rw [hr0] at hrestpos
            exact absurd hrestpos (by simp)
          · show 2 * (cam0.total -
                ((s.cam.initBasis).cursor).encode cam0.antialiasing cam0.height cam0.offset) +
              rest.length ≤ fuel
            rw [hibc]
            omega

/-- ScheduleJob never touches the counters. -/
theorem ScheduleJob_stats {P : GP} (maxJobs : Nat) (rng : Nat → ℚ × ℚ) (s : DState P) :
    (ScheduleJob maxJobs rng s).stats = s.stats := by
  unfold ScheduleJob
  by_cases h : s.active_jobs ≥ maxJobs
  · rw [if_pos h]
  · rw [if_neg h]
    rcases hEq : s.cam.GeneratePrimary (FatRay.fresh P) (rng s.rngIx) with ⟨b, cam', ray'⟩
    cases b <;> rfl

/-- One seeding call: either the queue grows towards full or the camera
is exhausted and stays so. -/
theorem seed_step {P : GP} (maxJobs : Nat) (rng : Nat → ℚ × ℚ) (cam0 : Camera P)
    (hH : 0 < cam0.height) (k : Nat) (s : DState P)
    (hinv : InvCore maxJobs cam0 s)
    (hk : ¬ cam0.endx ≤ s.cam.x → maxJobs ≤ s.inflight.length + (k + 1)) :
    InvCore maxJobs cam0 (ScheduleJob maxJobs rng s) ∧
      (¬ cam0.endx ≤ (ScheduleJob maxJobs rng s).cam.x →
        maxJobs ≤ (ScheduleJob maxJobs rng s).inflight.length + k) := by
  obtain ⟨hA, hHt, hO, hE, hval, hele, hkill, hact, hlemax, hstop, hrays⟩ := hinv
  have hcx : (Camera.cursor s.cam).x = s.cam.x := rfl
  by_cases hfull : s.active_jobs ≥ maxJobs
  · have hs : ScheduleJob maxJobs rng s = s := by
      unfold ScheduleJob
      rw [if_pos hfull]
    rw [hs]
    exact ⟨⟨hA, hHt, hO, hE, hval, hele, hkill, hact, hlemax, hstop, hrays⟩,
      fun _ => by omega⟩
  · have hlt : s.active_jobs < maxJobs := by omega
    by_cases hx : s.cam.x < s.cam.endx
    · obtain ⟨cam', ray', hgen, hsched⟩ := ScheduleJob_gen_true maxJobs rng s hlt hx
      rw [hsched]
      obtain ⟨_, hk2, _, _, hk5, hk6, hk7, _, hk9, hk10, hk11, hk12, hk13⟩ :=
        generate_true s.cam (FatRay.fresh P) (rng s.rngIx) hx
      rw [hgen] at hk2 hk5 hk6 hk7 hk9 hk10 hk11 hk12 hk13
      dsimp only at hk2 hk5 hk6 hk7 hk9 hk10 hk11 hk12 hk13
      rw [hA, hHt] at hk9
      have hadv := advance_spec cam0.antialiasing cam0.height cam0.offset
        (s.cam.cursor) hval hH
      have hlte := encode_lt_total cam0.antialiasing cam0.height cam0.offset cam0.endx
        (s.cam.cursor) hval (by rw [hcx, ← hE]; exact hx)
      have htdef : cam0.total = (cam0.endx - cam0.offset) * cam0.height *
          (aRad cam0.antialiasing * aRad cam0.antialiasing) := rfl
      have hxmono : s.cam.x ≤ cam'.x := by
        have h1 : cam'.x = ((s.cam.cursor).advance cam0.antialiasing cam0.height).x :=
          congrArg Cursor.x hk9
        have h2 := advance_x_mono cam0.antialiasing cam0.height (s.cam.cursor)
        rw [hcx] at h2
        omega
      refine ⟨⟨hk13.trans hA, hk12.trans hHt, hk11.trans hO, hk10.trans hE, ?_, ?_, ?_, ?_,
        ?_, hstop, ?_⟩, ?_⟩
      · show (cam'.cursor).Valid cam0.antialiasing cam0.height cam0.offset
        rw [hk9]; exact hadv.2
      · show (cam'.cursor).encode cam0.antialiasing cam0.height cam0.offset ≤ cam0.total
        rw [hk9, hadv.1]
        omega
      · show s.stats.intersects_killed + (s.inflight ++ [ray']).length =
          (cam'.cursor).encode cam0.antialiasing cam0.height cam0.offset
        rw [hk9, hadv.1, List.length_append]
        simp only [List.length_cons, List.length_nil]
        omega
      · show s.active_jobs + 1 = (s.inflight ++ [ray']).length
        rw [List.length_append]
        simp only [List.length_cons, List.length_nil]
        omega
      · show (s.inflight ++ [ray']).length ≤ maxJobs
        rw [List.length_append]
        simp only [List.length_cons, List.length_nil]
        omega
      · intro r hr
        rcases List.mem_append.mp hr with hr | hr
        · exact hrays r hr
        · have : r = ray' := by simpa using hr
          subst this
          refine ⟨hk2, ?_⟩
          rw [hk7]
          rfl
      · intro hnx
        show maxJobs ≤ (s.inflight ++ [ray']).length + k
        have hnxs : ¬ cam0.endx ≤ s.cam.x := fun hc => hnx (le_trans hc hxmono)
        have := hk hnxs
        rw [List.length_append]
        simp only [List.length_cons, List.length_nil]
        omega
    · have hxe : s.cam.endx ≤ s.cam.x := by omega
      rw [ScheduleJob_gen_false maxJobs rng s hlt hxe]
      have hibc : (s.cam.initBasis).cursor = s.cam.cursor := by
        unfold Camera.cursor
        rw [initBasis_x, initBasis_y, initBasis_i, initBasis_j]
      refine ⟨⟨(initBasis_aa s.cam).trans hA, (initBasis_height s.cam).trans hHt,
        (initBasis_offset s.cam).trans hO, (initBasis_endx s.cam).trans hE, ?_, ?_, ?_, hact,
        hlemax, hstop, hrays⟩, ?_⟩
      · show ((s.cam.initBasis).cursor).Valid cam0.antialiasing cam0.height cam0.offset
        rw [hibc]; exact hval
      · show ((s.cam.initBasis).cursor).encode cam0.antialiasing cam0.height cam0.offset
          ≤ cam0.total
        rw [hibc]; exact hele
      · show s.stats.intersects_killed + s.inflight.length =
          ((s.cam.initBasis).cursor).encode cam0.antialiasing cam0.height cam0.offset
        rw [hibc]; exact hkill
      · intro hnx
        exfalso
        apply hnx
        show cam0.endx ≤ (s.cam.initBasis).x
        rw [initBasis_x, ← hE]
        exact hxe

/-- Iterated seeding: after k further calls the invariant still holds and
the queue is full unless the camera ran dry. -/
theorem seed_iter {P : GP} (maxJobs : Nat) (rng : Nat → ℚ × ℚ) (cam0 : Camera P)
    (hH : 0 < cam0.height) :
    ∀ (k : Nat) (s : DState P), InvCore maxJobs cam0 s →
      (¬ cam0.endx ≤ s.cam.x → maxJobs ≤ s.inflight.length + k) →
      InvCore maxJobs cam0 ((ScheduleJob maxJobs rng)^[k] s) ∧
        (¬ cam0.endx ≤ ((ScheduleJob maxJobs rng)^[k] s).cam.x →
          maxJobs ≤ ((ScheduleJob maxJobs rng)^[k] s).inflight.length) := by
  intro k
  induction k with
  | zero =>
      intro s hinv hk
      exact ⟨hinv, fun h => by simpa using hk h⟩
  | succ k ih =>
      intro s hinv hk
      rw [Function.iterate_succ_apply]
      obtain ⟨hinv', hk'⟩ := seed_step maxJobs rng cam0 hH k s hinv hk
      exact ih (ScheduleJob maxJobs rng s) hinv' hk'

/-- Iterated seeding never touches the counters. -/
theorem seed_stats {P : GP} (maxJobs : Nat) (rng : Nat → ℚ × ℚ) :
    ∀ (k : Nat) (s : DState P), ((ScheduleJob maxJobs rng)^[k] s).stats = s.stats := by
  intro k
  induction k with
  | zero => intro s; rfl
  | succ k ih =>
      intro s
      rw [Function.iterate_succ_apply, ih (ScheduleJob maxJobs rng s)]
      exact ScheduleJob_stats maxJobs rng s

/-- EngineInit's seeding from a camera at the canonical start of its chunk
establishes the running invariant, leaves the kill counter at zero, and
puts at least one job in flight whenever there is any work at all. -/
theorem initJobs_inv {P : GP} (maxJobs : Nat) (rng : Nat → ℚ × ℚ) (cam0 : Camera P)
    (hH : 0 < cam0.height) (hx0 : cam0.x = cam0.offset) (hy0 : cam0.y = 0)
    (hi0 : cam0.i = 0) (hj0 : cam0.j = 0) :
    EngineInv maxJobs cam0 (initJobs maxJobs rng cam0) ∧
    (initJobs maxJobs rng cam0).stats.intersects_killed = 0 ∧
    (1 ≤ maxJobs → 1 ≤ cam0.total → (initJobs maxJobs rng cam0).inflight ≠ []) := by
  have hAf := aRad_facts cam0.antialiasing
  have hval0 : (cam0.cursor).Valid cam0.antialiasing cam0.height cam0.offset := by
    unfold Camera.cursor Cursor.Valid
    dsimp only
    rw [hx0, hy0, hi0, hj0]
    exact ⟨le_refl _, hH, by omega, by omega⟩
  have henc0 : (cam0.cursor).encode cam0.antialiasing cam0.height cam0.offset = 0 := by
    unfold Camera.cursor Cursor.encode
    dsimp only
    rw [hx0, hy0, hi0, hj0]
    simp
  have hinv0 : InvCore maxJobs cam0
      ({ active_jobs := 0
         cam := cam0
         inflight := []
         stats := RenderStats.zero
         stopped := false
         rngIx := 0 } : DState P) := by
    refine ⟨rfl, rfl, rfl, rfl, hval0, ?_, ?_, rfl,
      (by show ([] : List (FatRay P)).length ≤ maxJobs; simp), rfl,
      (by intro r hr; cases hr)⟩
    · rw [henc0]; omega
    · show RenderStats.zero.intersects_killed + ([] : List (FatRay P)).length = _
      rw [henc0]
      rfl
  obtain ⟨hinv, hfull⟩ : InvCore maxJobs cam0 (initJobs maxJobs rng cam0) ∧
      (¬ cam0.endx ≤ ((initJobs maxJobs rng cam0)).cam.x →
        maxJobs ≤ (initJobs maxJobs rng cam0).inflight.length) :=
    seed_iter maxJobs rng cam0 hH maxJobs _ hinv0
      (fun _ => by show maxJobs ≤ ([] : List (FatRay P)).length + maxJobs; simp)
  have hstats : (initJobs maxJobs rng cam0).stats = RenderStats.zero :=
    seed_stats maxJobs rng maxJobs _
  refine ⟨⟨hinv, fun hnx => le_antisymm hinv.2.2.2.2.2.2.2.2.1 (hfull hnx)⟩, ?_, ?_⟩
  · rw [hstats]; rfl
  · intro hmax1 htot hempty
    obtain ⟨_, _, _, _, hval, _, hkill, _, _, _, _⟩ := hinv
    rw [hempty] at hkill
    have hkill0 : (initJobs maxJobs rng cam0).stats.intersects_killed = 0 := by
      rw [hstats]; rfl
    simp only [List.length_nil, Nat.add_zero] at hkill
    by_cases hexh : cam0.endx ≤ ((initJobs maxJobs rng cam0).cam).x
    · have hge := encode_ge_total cam0.antialiasing cam0.height cam0.offset cam0.endx
        (((initJobs maxJobs rng cam0)).cam.cursor) hval hexh
      have htdef : cam0.total = (cam0.endx - cam0.offset) * cam0.height *
          (aRad cam0.antialiasing * aRad cam0.antialiasing) := rfl
      omega
    · have := hfull hexh
      rw [hempty] at this
      simp only [List.length_nil] at this
      -- maxJobs = 0: then the seeded queue is trivially empty yet so is
      -- every queue bound; the camera cannot also have work pending
      have hlen0 : (initJobs maxJobs rng cam0).inflight.length = 0 := by
        rw [hempty]; rfl
      omega

/-- C9 (amended): for every INTERSECT ray, ProcessIntersect increments the
job's intersects_killed counter by exactly 1 whether or not the ray hit
anything, and invokes IlluminateIntersection exactly when the
intersection pass left ray.hit.worker > 0; consequently, PROVIDED
max_jobs ≥ 2, a completed render of a nonempty chunk over a scene with no
meshes stops with intersects_killed equal to the total number of primary
rays (W·H·A²).  (With max_jobs = 1 the engine stops after a single kill:
see the counterexample.) -/
theorem C9_intersects_killed_amended {P : GP} (maxJobs : Nat)
    (shade : FatRay P → WorkResults → WorkResults) (lib : Library P) (rng : Nat → ℚ × ℚ)
    (cam0 : Camera P)
    (hshade : ∀ (r : FatRay P) (w : WorkResults),
      (shade r w).intersects_killed = w.intersects_killed) :
    (∀ (ray : FatRay P) (results : WorkResults),
      (ProcessIntersect shade lib ray results).intersects_killed =
        results.intersects_killed + 1) ∧
    (∀ (ray : FatRay P) (results : WorkResults),
      (0 < (lib.Intersect ray 1).hit.worker →
        ProcessIntersect shade lib ray results =
          { IlluminateIntersection shade lib (lib.Intersect ray 1) results with
            intersects_killed := (IlluminateIntersection shade lib (lib.Intersect ray 1)
              results).intersects_killed + 1 }) ∧
      ((lib.Intersect ray 1).hit.worker = 0 →
        ProcessIntersect shade lib ray results =
          { results with intersects_killed := results.intersects_killed + 1 })) ∧
    (2 ≤ maxJobs → 0 < cam0.height → 1 ≤ cam0.total →
      cam0.x = cam0.offset → cam0.y = 0 → cam0.i = 0 → cam0.j = 0 →
      (∀ x ∈ lib.meshes, x = none) →
      (runEngine maxJobs shade lib rng (2 * cam0.total)
        (initJobs maxJobs rng cam0)).stopped = true ∧
      (runEngine maxJobs shade lib rng (2 * cam0.total)
        (initJobs maxJobs rng cam0)).stats.intersects_killed = cam0.total) := by
  refine ⟨fun ray results => (ProcessIntersect_spec shade lib ray results hshade).1,
    fun ray results => ⟨(ProcessIntersect_spec shade lib ray results hshade).2.1,
      (ProcessIntersect_spec shade lib ray results hshade).2.2⟩, ?_⟩
  intro hmax hH htot hx0 hy0 hi0 hj0 hlib
  obtain ⟨hinv, hkill0, hne⟩ := initJobs_inv maxJobs rng cam0 hH hx0 hy0 hi0 hj0
  have hne' := hne (by omega) htot
  apply runEngine_drain maxJobs shade lib rng cam0 hH hmax hlib (2 * cam0.total)
    (initJobs maxJobs rng cam0) hinv hne'
  obtain ⟨⟨_, _, _, _, _, hele, hkill, _, _, _, _⟩, _⟩ := hinv
  omega

/-- C9's original run-level consequence fails at max_jobs = 1: the engine
completes (StopRender has run) after killing a single INTERSECT ray, so
intersects_killed is 1 while the chunk total W·H·A² is 2. -/
theorem C9_intersects_killed_cex :
    (runEngine 1 shade0 lib0 rng0 (2 * camB.total) (initJobs 1 rng0 camB)).stopped = true ∧
    (runEngine 1 shade0 lib0 rng0 (2 * camB.total)
      (initJobs 1 rng0 camB)).stats.intersects_killed = 1 ∧
    camB.total = 2 := by
  refine ⟨?_, ?_, rfl⟩ <;> rfl

/-- Witness: the amended C9 evaluated on the mesh-free library and the
2×1 unsampled camera chunk with two job slots. -/
theorem C9_intersects_killed_amended_witness :
    (∀ (r : FatRay GPu) (w : WorkResults),
      (shade0 r w).intersects_killed = w.intersects_killed) ∧
    (2 ≤ 2 ∧ 0 < camB.height ∧ 1 ≤ camB.total ∧ (∀ x ∈ lib0.meshes, x = none)) ∧
    ((runEngine 2 shade0 lib0 rng0 (2 * camB.total) (initJobs 2 rng0 camB)).stopped = true ∧
     (runEngine 2 shade0 lib0 rng0 (2 * camB.total)
       (initJobs 2 rng0 camB)).stats.intersects_killed = camB.total) :=
  ⟨fun _ _ => rfl,
   ⟨le_refl 2, by decide, by decide, fun x hx => List.mem_singleton.mp hx⟩,
   (C9_intersects_killed_amended 2 shade0 lib0 rng0 camB (fun _ _ => rfl)).2.2
     (by decide) (by decide) (by decide) rfl rfl rfl rfl
     (fun x hx => List.mem_singleton.mp hx)⟩

/-! ### C1: the stackless traversal simulates the recursive traversal -/

/-- Composition of machine runs. -/
theorem travIter_add (P : GP) (nodes : List (LinearNode P.B)) (prims : List Nat)
    (tris : List P.T) (me id : Nat) (r : SlimRay P.V P.D) (m n : Nat)
    (s : TravCfg × HitRecord P.G) :
    travIter P nodes prims tris me id r (m + n) s =
      travIter P nodes prims tris me id r m (travIter P nodes prims tris me id r n s) :=
  Function.iterate_add_apply _ m n s

/-- Termination is absorbing for the stackless machine. -/
theorem travIter_none (P : GP) (nodes : List (LinearNode P.B)) (prims : List Nat)
    (tris : List P.T) (me id : Nat) (r : SlimRay P.V P.D) (n : Nat) (acc : HitRecord P.G) :
    travIter P nodes prims tris me id r n (none, acc) = (none, acc) := by
  induction n with
  | zero => rfl
  | succ n ih =>
      show travIter P nodes prims tris me id r n
        (travStep1 P nodes prims tris me id r (none, acc)) = (none, acc)
      exact ih

/-- Any rooted subtree occupies a real node slot. -/
theorem subtree_get {P : GP} {nodes : List (LinearNode P.B)} {prims : List Nat}
    {i : Nat} {t : BTree P.B} (h : SubtreeAt P nodes prims i t) :
    ∃ nd, nodes.get? i = some nd := by
  cases h with
  | leaf i nd hget _ => exact ⟨nd, hget⟩
  | node i nd tl tr hget _ _ _ _ _ _ _ => exact ⟨nd, hget⟩

/-- Every tree has at least one node. -/
theorem size_pos {B : Type} : ∀ t : BTree B, 0 < t.size
  | BTree.leaf _ _ => Nat.one_pos
  | BTree.node _ _ l r => by show 0 < 1 + l.size + r.size; omega

/-- The stored parent pointers determine Sibling at both children. -/
theorem sibling_children {B : Type} (nodes : List (LinearNode B)) (i : Nat)
    (nd ndl ndr : LinearNode B) (hget : nodes.get? i = some nd) (hr1 : nd.right ≠ i + 1)
    (hgetl : nodes.get? (i + 1) = some ndl) (hgetr : nodes.get? nd.right = some ndr)
    (hp1 : parentIdx nodes (i + 1) = i) (hpr : parentIdx nodes nd.right = i) :
    siblingIdx nodes (i + 1) = nd.right ∧ siblingIdx nodes nd.right = i + 1 := by
  simp only [parentIdx, hgetl] at hp1
  simp only [parentIdx, hgetr] at hpr
  constructor
  · simp only [siblingIdx, hgetl, hp1, hget]
    rw [if_neg hr1]
  · simp only [siblingIdx, hgetr, hpr, hget]
    simp

/-- NearChild through the fetched node. -/
theorem nearChild_eq (P : GP) (nodes : List (LinearNode P.B)) (r : SlimRay P.V P.D)
    (i : Nat) (nd : LinearNode P.B) (hget : nodes.get? i = some nd) :
    nearChildIdx P nodes r i = if P.axisNeg r nd.axis then nd.right else i + 1 := by
  simp only [nearChildIdx, hget]

/-- Moving up from the root terminates. -/
theorem moveUp_root {B : Type} (nodes : List (LinearNode B)) (v : Visit) :
    moveUpCfg nodes 0 v = none := by
  simp [moveUpCfg]

/-- Moving up after a parent-entry goes to the sibling. -/
theorem moveUp_parent {B : Type} (nodes : List (LinearNode B)) (i : Nat) (h : i ≠ 0) :
    moveUpCfg nodes i Visit.fromParent = some (siblingIdx nodes i, Visit.fromSibling) := by
  simp [moveUpCfg, h]

/-- Moving up after a sibling-entry climbs to the parent. -/
theorem moveUp_sibling {B : Type} (nodes : List (LinearNode B)) (i : Nat) (h : i ≠ 0) :
    moveUpCfg nodes i Visit.fromSibling = some (parentIdx nodes i, Visit.fromChild) := by
  simp [moveUpCfg, h]

/-- One machine step on a node entered from the parent or the sibling. -/
theorem travStep_enter (P : GP) (nodes : List (LinearNode P.B)) (prims : List Nat)
    (tris : List P.T) (me id : Nat) (r : SlimRay P.V P.D) (i : Nat)
    (nd : LinearNode P.B) (hget : nodes.get? i = some nd) (v : Visit)
    (hv : v ≠ Visit.fromChild) (acc : HitRecord P.G) :
    travStep P nodes prims tris me id r ((i, v), acc) =
      (if P.boxHit nd.bounds r acc.t then
        if 0 < nd.n_prims then
          (moveUpCfg nodes i v, (leafPrims prims nd).foldl (hitPrim P me id tris r) acc)
        else (some (nearChildIdx P nodes r i, Visit.fromParent), acc)
      else (moveUpCfg nodes i v, acc)) := by
  cases v with
  | fromChild => exact absurd rfl hv
  | fromParent => simp only [travStep, hget]
  | fromSibling => simp only [travStep, hget]

/-- One machine step on a node returned to from a child. -/
theorem travStep_child (P : GP) (nodes : List (LinearNode P.B)) (prims : List Nat)
    (tris : List P.T) (me id : Nat) (r : SlimRay P.V P.D) (i : Nat)
    (nd : LinearNode P.B) (hget : nodes.get? i = some nd) (acc : HitRecord P.G) :
    travStep P nodes prims tris me id r ((i, Visit.fromChild), acc) =
      ((if i = 0 then none
        else if i = nearChildIdx P nodes r (parentIdx nodes i) then
          some (siblingIdx nodes i, Visit.fromSibling)
        else some (parentIdx nodes i, Visit.fromChild)), acc) := by
  simp only [travStep, hget]
  split_ifs <;> rfl

/-- Modelled from the spec: the stackless machine, entered at a
well-formed subtree with a from-direction consistent with the subtree's
position, runs the reference recursive traversal of the subtree and exits
upward, within twice the subtree size in steps. -/
theorem trav_sim (P : GP) (nodes : List (LinearNode P.B)) (prims : List Nat) (tris : List P.T)
    (me id : Nat) (r : SlimRay P.V P.D) :
    ∀ (i : Nat) (t : BTree P.B), SubtreeAt P nodes prims i t →
    ∀ (v : Visit) (acc : HitRecord P.G), v ≠ Visit.fromChild →
    (v = Visit.fromParent → i = 0 ∨ i = nearChildIdx P nodes r (parentIdx nodes i)) →
    (v = Visit.fromSibling → i ≠ 0 ∧ i ≠ nearChildIdx P nodes r (parentIdx nodes i)) →
    ∃ k, k ≤ 2 * t.size ∧
      travIter P nodes prims tris me id r k (some (i, v), acc) =
        (moveUpCfg nodes i v, recTraverse P tris me id r t acc) := by
  intro i t hsub
  induction hsub with
  | leaf j nd hget hn =>
      intro v acc hv _ _
      refine ⟨1, by show 1 ≤ 2 * 1; omega, ?_⟩
      show travStep P nodes prims tris me id r ((j, v), acc) = _
      rw [travStep_enter P nodes prims tris me id r j nd hget v hv acc]
      by_cases hb : P.boxHit nd.bounds r acc.t
      · rw [if_pos hb, if_pos hn]
        simp only [recTraverse]
        rw [if_pos hb]
      · rw [if_neg hb]
        simp only [recTraverse]
        rw [if_neg hb]
  | node j nd tl tr hget hn hr1 hr0 hp1 hpr hsl hsr ihl ihr =>
      intro v acc hv hvp hvs
      obtain ⟨ndl, hgetl⟩ := subtree_get hsl
      obtain ⟨ndr, hgetr⟩ := subtree_get hsr
      obtain ⟨hsib1, hsib2⟩ := sibling_children nodes j nd ndl ndr hget hr1 hgetl hgetr hp1 hpr
      have hnear := nearChild_eq P nodes r j nd hget
      have hszl := size_pos tl
      have hszr := size_pos tr
      by_cases hb : P.boxHit nd.bounds r acc.t
      · -- descend both children, near first
        have hchild : ∀ acc₂ : HitRecord P.G,
            travIter P nodes prims tris me id r 1 (some (j, Visit.fromChild), acc₂) =
              (moveUpCfg nodes j v, acc₂) := by
          intro acc₂
          show travStep P nodes prims tris me id r ((j, Visit.fromChild), acc₂) = _
          rw [travStep_child P nodes prims tris me id r j nd hget acc₂]
          by_cases hj0 : j = 0
          · subst hj0
            rw [if_pos rfl, moveUp_root]
          · rw [if_neg hj0]
            cases v with
            | fromChild => exact absurd rfl hv
            | fromParent =>
                rcases hvp rfl with h0 | hnc
                · exact absurd h0 hj0
                · rw [if_pos hnc, moveUp_parent nodes j hj0]
            | fromSibling =>
                obtain ⟨_, hne⟩ := hvs rfl
                rw [if_neg hne, moveUp_sibling nodes j hj0]
        by_cases hax : P.axisNeg r nd.axis
        · -- near child is the right child
          have hnear' : nearChildIdx P nodes r j = nd.right := by rw [hnear, if_pos hax]
          have h1 : travIter P nodes prims tris me id r 1 (some (j, v), acc) =
              (some (nd.right, Visit.fromParent), acc) := by
            show travStep P nodes prims tris me id r ((j, v), acc) = _
            rw [travStep_enter P nodes prims tris me id r j nd hget v hv acc,
              if_pos hb, if_neg (by omega), hnear']
          obtain ⟨k₁, hk₁, hrun₁⟩ := ihr Visit.fromParent acc (by decide)
            (fun _ => Or.inr (by rw [hpr, hnear']))
            (fun h => nomatch h)
          obtain ⟨k₂, hk₂, hrun₂⟩ := ihl Visit.fromSibling
            (recTraverse P tris me id r tr acc) (by decide) (fun h => nomatch h)
            (fun _ => ⟨Nat.succ_ne_zero j,
              by rw [hp1, hnear']; exact fun h => hr1 h.symm⟩)
          have hrun₁' : travIter P nodes prims tris me id r k₁
              (some (nd.right, Visit.fromParent), acc) =
              (some (j + 1, Visit.fromSibling), recTraverse P tris me id r tr acc) := by
            rw [hrun₁, moveUp_parent nodes nd.right hr0, hsib2]
          have hrun₂' : travIter P nodes prims tris me id r k₂
              (some (j + 1, Visit.fromSibling), recTraverse P tris me id r tr acc) =
              (some (j, Visit.fromChild),
                recTraverse P tris me id r tl (recTraverse P tris me id r tr acc)) := by
            rw [hrun₂, moveUp_sibling nodes (j + 1) (Nat.succ_ne_zero j), hp1]
          refine ⟨1 + (k₂ + (k₁ + 1)), by show _ ≤ 2 * (1 + tl.size + tr.size); omega, ?_⟩
          rw [travIter_add P nodes prims tris me id r 1 (k₂ + (k₁ + 1)) _,
            travIter_add P nodes prims tris me id r k₂ (k₁ + 1) _,
            travIter_add P nodes prims tris me id r k₁ 1 _,
            h1, hrun₁', hrun₂', hchild]
          simp only [recTraverse]
          rw [if_pos hb, if_pos hax]
        · -- near child is the left child
          have hnear' : nearChildIdx P nodes r j = j + 1 := by rw [hnear, if_neg hax]
          have h1 : travIter P nodes prims tris me id r 1 (some (j, v), acc) =
              (some (j + 1, Visit.fromParent), acc) := by
            show travStep P nodes prims tris me id r ((j, v), acc) = _
            rw [travStep_enter P nodes prims tris me id r j nd hget v hv acc,
              if_pos hb, if_neg (by omega), hnear']
          obtain ⟨k₁, hk₁, hrun₁⟩ := ihl Visit.fromParent acc (by decide)
            (fun _ => Or.inr (by rw [hp1, hnear']))
            (fun h => nomatch h)
          obtain ⟨k₂, hk₂, hrun₂⟩ := ihr Visit.fromSibling
            (recTraverse P tris me id r tl acc) (by decide) (fun h => nomatch h)
            (fun _ => ⟨hr0, by rw [hpr, hnear']; exact hr1⟩)
          have hrun₁' : travIter P nodes prims tris me id r k₁
              (some (j + 1, Visit.fromParent), acc) =
              (some (nd.right, Visit.fromSibling), recTraverse P tris me id r tl acc) := by
            rw [hrun₁, moveUp_parent nodes (j + 1) (Nat.succ_ne_zero j), hsib1]
          have hrun₂' : travIter P nodes prims tris me id r k₂
              (some (nd.right, Visit.fromSibling), recTraverse P tris me id r tl acc) =
              (some (j, Visit.fromChild),
                recTraverse P tris me id r tr (recTraverse P tris me id r tl acc)) := by
            rw [hrun₂, moveUp_sibling nodes nd.right hr0, hpr]
          refine ⟨1 + (k₂ + (k₁ + 1)), by show _ ≤ 2 * (1 + tl.size + tr.size); omega, ?_⟩
          rw [travIter_add P nodes prims tris me id r 1 (k₂ + (k₁ + 1)) _,
            travIter_add P nodes prims tris me id r k₂ (k₁ + 1) _,
            travIter_add P nodes prims tris me id r k₁ 1 _,
            h1, hrun₁', hrun₂', hchild]
          simp only [recTraverse]
          rw [if_pos hb, if_neg hax]
      · -- the node's bounds miss: move on after one step
        refine ⟨1, by show 1 ≤ 2 * (1 + tl.size + tr.size); omega, ?_⟩
        show travStep P nodes prims tris me id r ((j, v), acc) = _
        rw [travStep_enter P nodes prims tris me id r j nd hget v hv acc, if_neg hb]
        simp only [recTraverse]
        rw [if_neg hb]

/-- Modelled from the spec: on a well-formed flatten, the stackless
traversal from the root computes the reference recursive traversal, and
the 2·|nodes|+1 fuel is enough for it to have terminated. -/
theorem Traverse_eq_rec (P : GP) (nodes : List (LinearNode P.B)) (prims : List Nat)
    (tris : List P.T) (me id : Nat) (r : SlimRay P.V P.D) (t : BTree P.B)
    (hsub : SubtreeAt P nodes prims 0 t) (hsz : t.size ≤ nodes.length)
    (nearest : HitRecord P.G) :
    Traverse P nodes prims tris me id r nearest = recTraverse P tris me id r t nearest := by
  obtain ⟨k, hk, hrun⟩ := trav_sim P nodes prims tris me id r 0 t hsub Visit.fromParent nearest
    (by decide) (fun _ => Or.inl rfl) (fun h => nomatch h)
  rw [moveUp_root] at hrun
  unfold Traverse
  have hsplit : 2 * nodes.length + 1 = (2 * nodes.length + 1 - k) + k := by omega
  rw [hsplit, travIter_add, hrun, travIter_none]

/-! ### C1: the passes as least-hit computations -/

/-- bestPrim splits off its head through triT. -/
theorem bestPrim_cons (P : GP) (tris : List P.T) (r : SlimRay P.V P.D) (x : Nat)
    (l : List Nat) :
    bestPrim P tris r (x :: l) = min (triT P tris r x) (bestPrim P tris r l) := by
  rcases hg : tris.get? x with _ | tri
  · simp only [bestPrim, triT, hg]
    exact (min_eq_right le_top).symm
  · rcases ht : P.triIntersect tri r with _ | ⟨tq, gg⟩
    · simp only [bestPrim, triT, hg, ht]
      exact (min_eq_right le_top).symm
    · simp only [bestPrim, triT, hg, ht]

/-- The least hit among a primitive list is permutation-invariant. -/
theorem bestPrim_perm (P : GP) (tris : List P.T) (r : SlimRay P.V P.D) {l l' : List Nat}
    (h : l.Perm l') : bestPrim P tris r l = bestPrim P tris r l' := by
  induction h with
  | nil => rfl
  | cons x h ih => rw [bestPrim_cons, bestPrim_cons, ih]
  | swap x y l =>
      rw [bestPrim_cons, bestPrim_cons, bestPrim_cons, bestPrim_cons]
      exact min_left_comm _ _ _
  | trans h1 h2 ih1 ih2 => exact ih1.trans ih2

/-- The least hit distributes over append as a min. -/
theorem bestPrim_append (P : GP) (tris : List P.T) (r : SlimRay P.V P.D) (l l' : List Nat) :
    bestPrim P tris r (l ++ l') = min (bestPrim P tris r l) (bestPrim P tris r l') := by
  induction l with
  | nil =>
      show bestPrim P tris r l' = min ⊤ (bestPrim P tris r l')
      exact (min_eq_right le_top).symm
  | cons x rest ih => rw [List.cons_append, bestPrim_cons, ih, bestPrim_cons, min_assoc]

/-- Shifting every index down one triangle. -/
theorem bestPrim_map_succ (P : GP) (tri : P.T) (rest : List P.T) (r : SlimRay P.V P.D)
    (l : List Nat) :
    bestPrim P (tri :: rest) r (l.map Nat.succ) = bestPrim P rest r l := by
  induction l with
  | nil => rfl
  | cons x xs ih =>
      rw [List.map_cons, bestPrim_cons, bestPrim_cons, ih]
      rfl

/-- Sweeping the whole index range is the triangle sweep. -/
theorem bestPrim_range (P : GP) (r : SlimRay P.V P.D) :
    ∀ tris : List P.T, bestPrim P tris r (List.range tris.length) = bestTri P r tris := by
  intro tris
  induction tris with
  | nil => rfl
  | cons tri rest ih =>
      show bestPrim P (tri :: rest) r (List.range (rest.length + 1)) = _
      rw [List.range_succ_eq_map, bestPrim_cons, bestPrim_map_succ P tri rest r, ih]
      have h0 : (tri :: rest).get? 0 = some tri := rfl
      rcases ht : P.triIntersect tri r with _ | ⟨tq, gg⟩
      · simp only [bestTri, triT, h0, ht]
        exact min_eq_right le_top
      · simp only [bestTri, triT, h0, ht]

/-- A finite least hit is attained by some listed primitive. -/
theorem bestPrim_attained (P : GP) (tris : List P.T) (r : SlimRay P.V P.D) :
    ∀ ps : List Nat, bestPrim P tris r ps ≠ ⊤ →
      ∃ idx ∈ ps, ∃ tri, tris.get? idx = some tri ∧ ∃ tq gg,
        P.triIntersect tri r = some (tq, gg) ∧ (tq : WithTop ℚ) = bestPrim P tris r ps := by
  intro ps
  induction ps with
  | nil => intro h; exact absurd rfl h
  | cons x rest ih =>
      intro h
      rw [bestPrim_cons] at h ⊢
      rcases le_total (triT P tris r x) (bestPrim P tris r rest) with hle | hle
      · rw [min_eq_left hle] at h ⊢
        rcases hg : tris.get? x with _ | tri
        · exact absurd (by simp only [triT, hg]) h
        · rcases ht : P.triIntersect tri r with _ | ⟨tq, gg⟩
          · exact absurd (by simp only [triT, hg, ht]) h
          · refine ⟨x, List.mem_cons_self _ _, tri, hg, tq, gg, ht, ?_⟩
            simp only [triT, hg, ht]
      · rw [min_eq_right hle] at h ⊢
        obtain ⟨idx, hmem, tri, hg, tq, gg, ht, htq⟩ := ih h
        exact ⟨idx, List.mem_cons_of_mem _ hmem, tri, hg, tq, gg, ht, htq⟩

/-- Folds of pointwise-equal step functions agree. -/
theorem foldl_congr' {α β : Type} (f g : α → β → α) :
    ∀ (l : List β) (a : α), (∀ x ∈ l, ∀ acc, f acc x = g acc x) →
      l.foldl f a = l.foldl g a := by
  intro l
  induction l with
  | nil => intro a _; rfl
  | cons x rest ih =>
      intro a hfg
      rw [List.foldl_cons, List.foldl_cons, hfg x (List.mem_cons_self _ _) a]
      exact ih _ (fun y hy => hfg y (List.mem_cons_of_mem _ hy))

/-- The key of a fold of keep-if-nearer steps: the least candidate wins
when it beats the incoming record. -/
theorem foldl_opt_key {β : Type} (P : GP) (me id : Nat) (g : β → WithTop ℚ) (γ : β → P.G) :
    ∀ (l : List β) (acc : HitRecord P.G),
      key (l.foldl
        (fun a x => if g x < a.t then (⟨me, id, g x, γ x⟩ : HitRecord P.G) else a) acc) =
        (if bestOf g l < acc.t then (me, id, bestOf g l) else key acc) := by
  intro l
  induction l with
  | nil =>
      intro acc
      rw [if_neg (show ¬ bestOf g [] < acc.t from not_top_lt)]
      rfl
  | cons x rest ih =>
      intro acc
      rw [List.foldl_cons, ih]
      have hbo : bestOf g (x :: rest) = min (g x) (bestOf g rest) := rfl
      rw [hbo]
      rcases lt_or_ge (g x) acc.t with hlt | hge
      · rw [if_pos hlt]
        have hmin : min (g x) (bestOf g rest) < acc.t :=
          lt_of_le_of_lt (min_le_left _ _) hlt
        rw [if_pos hmin]
        rcases lt_or_ge (bestOf g rest) (g x) with h2 | h2
        · rw [if_pos (show bestOf g rest < (⟨me, id, g x, γ x⟩ : HitRecord P.G).t from h2),
            min_eq_right (le_of_lt h2)]
        · rw [if_neg (show ¬ bestOf g rest < (⟨me, id, g x, γ x⟩ : HitRecord P.G).t from
              not_lt.mpr h2), min_eq_left h2]
          rfl
      · rw [if_neg (not_lt.mpr hge)]
        rcases lt_or_ge (bestOf g rest) acc.t with h2 | h2
        · rw [if_pos h2, if_pos (lt_of_le_of_lt (min_le_right _ _) h2),
            min_eq_right (le_trans (le_of_lt h2) hge)]
        · rw [if_neg (not_lt.mpr h2),
            if_neg (show ¬ min (g x) (bestOf g rest) < acc.t by
              rw [not_lt, le_min_iff]; exact ⟨hge, h2⟩)]

/-- hitTri is a keep-if-nearer step for the triangle's hit parameter. -/
theorem hitTri_opt (P : GP) (me id : Nat) (r : SlimRay P.V P.D) (acc : HitRecord P.G)
    (tri : P.T) :
    hitTri P me id r acc tri =
      (if (match P.triIntersect tri r with
            | some (tq, _) => (tq : WithTop ℚ)
            | none => ⊤) < acc.t then
        (⟨me, id,
          (match P.triIntersect tri r with
            | some (tq, _) => (tq : WithTop ℚ)
            | none => ⊤),
          (match P.triIntersect tri r with
            | some (_, gg) => gg
            | none => P.g0)⟩ : HitRecord P.G)
      else acc) := by
  rcases ht : P.triIntersect tri r with _ | ⟨tq, gg⟩
  · simp only [hitTri, ht]
    rw [if_neg not_top_lt]
  · simp only [hitTri, ht]

/-- hitPrim is a keep-if-nearer step for the indexed hit parameter. -/
theorem hitPrim_opt (P : GP) (me id : Nat) (tris : List P.T) (r : SlimRay P.V P.D)
    (acc : HitRecord P.G) (idx : Nat) :
    hitPrim P me id tris r acc idx =
      (if triT P tris r idx < acc.t then
        (⟨me, id, triT P tris r idx,
          (match tris.get? idx with
            | some tri =>
                (match P.triIntersect tri r with
                  | some (_, gg) => gg
                  | none => P.g0)
            | none => P.g0)⟩ : HitRecord P.G)
      else acc) := by
  rcases hg : tris.get? idx with _ | tri
  · simp only [hitPrim, triT, hg]
    rw [if_neg not_top_lt]
  · rcases ht : P.triIntersect tri r with _ | ⟨tq, gg⟩
    · simp only [hitPrim, hitTri, triT, hg, ht]
      rw [if_neg not_top_lt]
    · simp only [hitPrim, hitTri, triT, hg, ht]

/-- bestTri is the least candidate over the triangle list itself. -/
theorem bestTri_eq_bestOf (P : GP) (r : SlimRay P.V P.D) :
    ∀ l : List P.T,
      bestTri P r l = bestOf (fun tri =>
        match P.triIntersect tri r with
        | some (tq, _) => (tq : WithTop ℚ)
        | none => ⊤) l := by
  intro l
  induction l with
  | nil => rfl
  | cons tri rest ih =>
      rcases ht : P.triIntersect tri r with _ | ⟨tq, gg⟩
      · simp only [bestTri, bestOf, ht, ih]
        exact (min_eq_right le_top).symm
      · simp only [bestTri, bestOf, ht, ih]

/-- bestPrim is the least candidate over the index list. -/
theorem bestPrim_eq_bestOf (P : GP) (tris : List P.T) (r : SlimRay P.V P.D) :
    ∀ ps : List Nat, bestPrim P tris r ps = bestOf (triT P tris r) ps := by
  intro ps
  induction ps with
  | nil => rfl
  | cons x rest ih => rw [bestPrim_cons, ih]; rfl

/-- The naive triangle sweep, at the key level. -/
theorem foldl_hitTri_key (P : GP) (me id : Nat) (r : SlimRay P.V P.D) (l : List P.T)
    (acc : HitRecord P.G) :
    key (l.foldl (hitTri P me id r) acc) =
      (if bestTri P r l < acc.t then (me, id, bestTri P r l) else key acc) := by
  rw [foldl_congr' (hitTri P me id r) _ l acc
    (fun tri _ a => hitTri_opt P me id r a tri), foldl_opt_key, ← bestTri_eq_bestOf]

/-- The leaf primitive sweep, at the key level. -/
theorem foldl_hitPrim_key (P : GP) (me id : Nat) (tris : List P.T) (r : SlimRay P.V P.D)
    (ps : List Nat) (acc : HitRecord P.G) :
    key (ps.foldl (hitPrim P me id tris r) acc) =
      (if bestPrim P tris r ps < acc.t then (me, id, bestPrim P tris r ps) else key acc) := by
  rw [foldl_congr' (hitPrim P me id tris r) _ ps acc
    (fun idx _ a => hitPrim_opt P me id tris r a idx), foldl_opt_key, ← bestPrim_eq_bestOf]

/-- Composing two keep-if-nearer selections is selection by the min. -/
theorem if_min_comp {α : Type} [LinearOrder α] {β : Type} (t0 b1 b2 : α)
    (u : α → β) (k0 : β) :
    (if b1 < (if b2 < t0 then b2 else t0) then u b1
     else (if b2 < t0 then u b2 else k0)) =
    (if min b1 b2 < t0 then u (min b1 b2) else k0) := by
  rcases le_total b1 b2 with h | h
  · rw [min_eq_left h]
    by_cases h2 : b2 < t0
    · rw [if_pos h2, if_pos h2]
      by_cases h1 : b1 < b2
      · rw [if_pos h1, if_pos (lt_of_le_of_lt h h2)]
      · have he : b1 = b2 := le_antisymm h (not_lt.mp h1)
        rw [if_neg h1, if_pos (he ▸ h2), he]
    · rw [if_neg h2, if_neg h2]
  · rw [min_eq_right h]
    by_cases h2 : b2 < t0
    · rw [if_pos h2, if_pos h2, if_neg (not_lt.mpr h)]
    · rw [if_neg h2, if_neg h2,
        if_neg (show ¬ b1 < t0 from fun hc => h2 (lt_of_le_of_lt h hc))]

/-- The reference traversal of a conservative tree, at the key level:
exactly the naive sweep of the primitives beneath it. -/
theorem recTraverse_key (P : GP) (tris : List P.T) (me id : Nat) (r : SlimRay P.V P.D) :
    ∀ (t : BTree P.B) (acc : HitRecord P.G), ConsTree P tris r t →
      key (recTraverse P tris me id r t acc) =
        (if bestPrim P tris r t.allPrims < acc.t then
          (me, id, bestPrim P tris r t.allPrims) else key acc) := by
  intro t
  induction t with
  | leaf b ps =>
      intro acc hcons
      have hc : boxCons P tris r b ps := hcons
      simp only [recTraverse, BTree.allPrims]
      by_cases hb : P.boxHit b r acc.t
      · rw [if_pos hb]
        exact foldl_hitPrim_key P me id tris r ps acc
      · rw [if_neg hb]
        have hnlt : ¬ bestPrim P tris r ps < acc.t := by
          intro hlt
          obtain ⟨idx, hmem, tri, hg, tq, gg, ht, htq⟩ :=
            bestPrim_attained P tris r ps (ne_top_of_lt hlt)
          exact hb (hc idx hmem tri hg tq gg ht acc.t (by rw [htq]; exact hlt))
        rw [if_neg hnlt]
  | node b ax l rr ihl ihr =>
      intro acc hcons
      obtain ⟨hc, hcl, hcr⟩ : boxCons P tris r b (l.allPrims ++ rr.allPrims) ∧
          ConsTree P tris r l ∧ ConsTree P tris r rr := hcons
      simp only [recTraverse, BTree.allPrims]
      rw [bestPrim_append]
      by_cases hb : P.boxHit b r acc.t
      · rw [if_pos hb]
        by_cases hax : P.axisNeg r ax
        · rw [if_pos hax]
          have hXt : (recTraverse P tris me id r rr acc).t =
              (if bestPrim P tris r rr.allPrims < acc.t then
                bestPrim P tris r rr.allPrims else acc.t) := by
            have h := congrArg (fun p : Nat × Nat × WithTop ℚ => p.2.2) (ihr acc hcr)
            simpa [key, apply_ite (fun p : Nat × Nat × WithTop ℚ => p.2.2)] using h
          rw [ihl _ hcl, hXt, ihr acc hcr,
            if_min_comp acc.t (bestPrim P tris r l.allPrims)
              (bestPrim P tris r rr.allPrims)
              (fun z => ((me, id, z) : Nat × Nat × WithTop ℚ)) (key acc)]
        · rw [if_neg hax]
          have hXt : (recTraverse P tris me id r l acc).t =
              (if bestPrim P tris r l.allPrims < acc.t then
                bestPrim P tris r l.allPrims else acc.t) := by
            have h := congrArg (fun p : Nat × Nat × WithTop ℚ => p.2.2) (ihl acc hcl)
            simpa [key, apply_ite (fun p : Nat × Nat × WithTop ℚ => p.2.2)] using h
          rw [ihr _ hcr, hXt, ihl acc hcl,
            if_min_comp acc.t (bestPrim P tris r rr.allPrims)
              (bestPrim P tris r l.allPrims)
              (fun z => ((me, id, z) : Nat × Nat × WithTop ℚ)) (key acc),
            min_comm (bestPrim P tris r rr.allPrims) (bestPrim P tris r l.allPrims)]
      · rw [if_neg hb]
        have hnlt : ¬ min (bestPrim P tris r l.allPrims) (bestPrim P tris r rr.allPrims)
            < acc.t := by
          intro hlt
          rw [← bestPrim_append] at hlt
          obtain ⟨idx, hmem, tri, hg, tq, gg, ht, htq⟩ :=
            bestPrim_attained P tris r _ (ne_top_of_lt hlt)
          exact hb (hc idx hmem tri hg tq gg ht acc.t (by rw [htq]; exact hlt))
        rw [if_neg hnlt]

/-- With a well-formed BVH, one mesh's traversal step agrees with the
naive triangle sweep at the key level. -/
theorem meshStep_key {P : GP} (me : Nat) (r : SlimRay P.V P.D)
    (x : Nat × Option (Mesh P))
    (hwf : ∀ mesh, x.2 = some mesh → x.1 ≠ 0 → MeshWF P mesh (mesh.transformTo r))
    (acc1 acc2 : HitRecord P.G) (hk : key acc1 = key acc2) :
    key (bvhMeshStep P me r acc1 x) = key (naiveMeshStep P me r acc2 x) := by
  obtain ⟨id, om⟩ := x
  cases id with
  | zero =>
      cases om with
      | none => exact hk
      | some m => exact hk
  | succ n =>
      cases om with
      | none => exact hk
      | some mesh =>
          obtain ⟨t, hsub, hsz, hcons, hperm⟩ := hwf mesh rfl (Nat.succ_ne_zero n)
          have ht : acc1.t = acc2.t := congrArg (fun p : Nat × Nat × WithTop ℚ => p.2.2) hk
          show key (Traverse P mesh.bvhNodes mesh.bvhPrims mesh.tris me (n + 1)
              (mesh.transformTo r) acc1) =
            key (mesh.tris.foldl (hitTri P me (n + 1) (mesh.transformTo r)) acc2)
          rw [Traverse_eq_rec P mesh.bvhNodes mesh.bvhPrims mesh.tris me (n + 1)
              (mesh.transformTo r) t hsub hsz acc1,
            recTraverse_key P mesh.tris me (n + 1) (mesh.transformTo r) t acc1 hcons,
            foldl_hitTri_key P me (n + 1) (mesh.transformTo r) mesh.tris acc2,
            bestPrim_perm P mesh.tris (mesh.transformTo r) hperm,
            bestPrim_range P (mesh.transformTo r) mesh.tris, ht, hk]

/-- The whole mesh loop agrees at the key level. -/
theorem foldl_mesh_key {P : GP} (me : Nat) (r : SlimRay P.V P.D) :
    ∀ (l : List (Nat × Option (Mesh P))),
      (∀ p ∈ l, ∀ mesh, p.2 = some mesh → p.1 ≠ 0 → MeshWF P mesh (mesh.transformTo r)) →
      ∀ (acc1 acc2 : HitRecord P.G), key acc1 = key acc2 →
      key (l.foldl (bvhMeshStep P me r) acc1) = key (l.foldl (naiveMeshStep P me r) acc2) := by
  intro l
  induction l with
  | nil => intro _ acc1 acc2 hk; exact hk
  | cons p rest ih =>
      intro hwf acc1 acc2 hk
      rw [List.foldl_cons, List.foldl_cons]
      exact ih (fun q hq => hwf q (List.mem_cons_of_mem _ hq)) _ _
        (meshStep_key me r p (fun mesh hm h0 => hwf p (List.mem_cons_self _ _) mesh hm h0)
          acc1 acc2 hk)

/-- C1: for every FatRay and every mesh library whose per-mesh BVHs are
well-formed (a flatten of a binary tree with conservative bounds whose
primitive array covers the triangles exactly — spec §3's invariants, with
BVH::Traverse modelled from spec §4.B since bvh.cpp is absent),
Library::Intersect and Library::NaiveIntersect leave the ray with the
same nearest hit: equal worker flag, equal mesh id and equal hit
parameter t (exactly, since the model's arithmetic is exact). -/
theorem C1_bvh_naive_equiv {P : GP} (lib : Library P) (ray : FatRay P) (me : Nat)
    (hwf : ∀ p ∈ lib.meshes.enum, ∀ mesh, p.2 = some mesh → p.1 ≠ 0 →
      MeshWF P mesh (mesh.transformTo ray.slim)) :
    (lib.Intersect ray me).hit.worker = (lib.NaiveIntersect ray me).hit.worker ∧
    (lib.Intersect ray me).hit.mesh = (lib.NaiveIntersect ray me).hit.mesh ∧
    (lib.Intersect ray me).hit.t = (lib.NaiveIntersect ray me).hit.t := by
  have hk := foldl_mesh_key me ray.slim lib.meshes.enum hwf
    ⟨0, 0, ⊤, P.g0⟩ ⟨0, 0, ⊤, P.g0⟩ rfl
  unfold Library.Intersect Library.NaiveIntersect
  generalize hg1 : lib.meshes.enum.foldl (bvhMeshStep P me ray.slim)
    (⟨0, 0, ⊤, P.g0⟩ : HitRecord P.G) = n1 at hk ⊢
  generalize hg2 : lib.meshes.enum.foldl (naiveMeshStep P me ray.slim)
    (⟨0, 0, ⊤, P.g0⟩ : HitRecord P.G) = n2 at hk ⊢
  have hw : n1.worker = n2.worker := congrArg (fun p : Nat × Nat × WithTop ℚ => p.1) hk
  have hm : n1.mesh = n2.mesh := congrArg (fun p : Nat × Nat × WithTop ℚ => p.2.1) hk
  have ht : n1.t = n2.t := congrArg (fun p : Nat × Nat × WithTop ℚ => p.2.2) hk
  unfold finishIntersect
  by_cases hgate : 0 < n1.worker ∧ n1.t < ray.hit.t
  · rw [if_pos hgate, if_pos (show 0 < n2.worker ∧ n2.t < ray.hit.t by
      rw [← hw, ← ht]; exact hgate)]
    exact ⟨hw, hm, ht⟩
  · rw [if_neg hgate, if_neg (show ¬ (0 < n2.worker ∧ n2.t < ray.hit.t) by
      rw [← hw, ← ht]; exact hgate)]
    exact ⟨rfl, rfl, rfl⟩

/-- Witness: the equivalence evaluated on the concrete two-leaf BVH over
three triangles. -/
theorem C1_bvh_naive_equiv_witness :
    (∀ p ∈ libT.meshes.enum, ∀ mesh : Mesh GPu, p.2 = some mesh → p.1 ≠ 0 →
      MeshWF GPu mesh (mesh.transformTo rayT.slim)) ∧
    ((libT.Intersect rayT 1).hit.worker = (libT.NaiveIntersect rayT 1).hit.worker ∧
     (libT.Intersect rayT 1).hit.mesh = (libT.NaiveIntersect rayT 1).hit.mesh ∧
     (libT.Intersect rayT 1).hit.t = (libT.NaiveIntersect rayT 1).hit.t) := by
  have hwf : ∀ p ∈ libT.meshes.enum, ∀ mesh : Mesh GPu, p.2 = some mesh → p.1 ≠ 0 →
      MeshWF GPu mesh (mesh.transformTo rayT.slim) := by
    intro p hp mesh hm h0
    have he : libT.meshes.enum = [(0, (none : Option (Mesh GPu))), (1, some meshT)] := rfl
    rw [he] at hp
    rcases List.mem_cons.mp hp with rfl | hp
    · cases hm
    · obtain rfl : p = (1, some meshT) := List.mem_singleton.mp hp
      obtain rfl : meshT = mesh := Option.some.inj hm
      refine ⟨treeT, ?_, by decide, ?_, ?_⟩
      · refine @SubtreeAt.node GPu meshT.bvhNodes meshT.bvhPrims 0
          { bounds := true, parent := 0, right := 2, axis := Axis.X,
            first_prim := 0, n_prims := 0 }
          (BTree.leaf true [0, 1]) (BTree.leaf true [2])
          rfl rfl (by decide) (by decide) rfl rfl ?_ ?_
        · exact @SubtreeAt.leaf GPu meshT.bvhNodes meshT.bvhPrims 1
            { bounds := true, parent := 0, right := 0, axis := Axis.X,
              first_prim := 0, n_prims := 2 } rfl (by decide)
        · exact @SubtreeAt.leaf GPu meshT.bvhNodes meshT.bvhPrims 2
            { bounds := true, parent := 0, right := 0, axis := Axis.X,
              first_prim := 2, n_prims := 1 } rfl (by decide)
      · refine ⟨?_, ?_, ?_⟩ <;> intro idx hidx tri hg tq gg ht m hm2 <;> rfl
      · exact List.Perm.refl _
  exact ⟨hwf, C1_bvh_naive_equiv libT rayT 1 hwf⟩

end fr
